import Mathlib

/-!
Verification development for the osu-scan repository.

This file gives a shallow embedding of the incremental global scan engine of
`src/scan_logic.py` (functions `global_bn_duo_scan`, `process_nominator_set`,
`_load_cache`) and of the offset-style pagination loops of
`src/gder_logic.py:get_beatmapsets` and `src/scan_logic.py:get_beatmapsets`,
and proves or refutes the frozen claims about them.

Modelling conventions:
- Network I/O is replaced by explicit data: the corpus search result is a list
  of shallow set references, and the two deep-fetch passes are oracles
  `Nat → Option DeepData` (`none` models a non-200 response, a thrown
  exception, or a missing token - every path of `process_nominator_set` that
  yields a `None` host id together with no usable payload).
- Python `defaultdict` counters become total functions together with an
  explicit key list (Python `in` tests on a defaultdict consult the key set,
  and keys are inserted by any `[]` access, so both parts are modelled).
- Python sets of strings are modelled as duplicate-free lists built by
  insertion order; all uses below are order-independent.
- Dates are ISO date strings compared lexicographically, as in the source.
- The thread pool's completion order is nondeterministic in the source; the
  model folds the per-set merges in submission (list) order.  Every property
  proved below about a single merge step holds for any order; the run-level
  theorems are about this admissible schedule.
- The `user_modes` map of the cache is write-only in the scanned state (it is
  only persisted and used for display); no claim mentions it, so it is
  omitted from the modelled state.
-/

/-- Python `set.add` / dict-key insertion: append the key if absent.
Used for `scanned_ids`, defaultdict key sets and deduplicated mode lists. -/
def insertKey {α : Type} [DecidableEq α] (l : List α) (k : α) : List α :=
  if k ∈ l then l else l ++ [k]

/-- Python `set(xs)` on a list: keep the first occurrence of each element. -/
def pydedup {α : Type} [DecidableEq α] (l : List α) : List α :=
  l.foldl insertKey []

/-- Point update of a total map (a `defaultdict` value store). -/
def setFn {α β : Type} [DecidableEq α] (f : α → β) (k : α) (v : β) : α → β :=
  fun x => if x = k then v else f x

theorem mem_insertKey_iff {α : Type} [DecidableEq α] (l : List α) (k a : α) :
    a ∈ insertKey l k ↔ a ∈ l ∨ a = k := by
  unfold insertKey
  split
  · constructor
    · exact fun h => Or.inl h
    · rintro (h | rfl)
      · exact h
      · assumption
  · simp

theorem nodup_insertKey {α : Type} [DecidableEq α] {l : List α} (h : l.Nodup) (k : α) :
    (insertKey l k).Nodup := by
  unfold insertKey
  split
  · exact h
  · simp_all [List.nodup_append]

theorem pydedup_go_mem {α : Type} [DecidableEq α] (l acc : List α) (a : α) :
    a ∈ l.foldl insertKey acc ↔ a ∈ acc ∨ a ∈ l := by
  induction l generalizing acc with
  | nil => simp
  | cons x xs ih =>
    simp only [List.foldl_cons, ih, mem_insertKey_iff, List.mem_cons]
    tauto

theorem mem_pydedup_iff {α : Type} [DecidableEq α] (l : List α) (a : α) :
    a ∈ pydedup l ↔ a ∈ l := by
  unfold pydedup
  rw [pydedup_go_mem]
  simp

theorem pydedup_go_nodup {α : Type} [DecidableEq α] (l : List α) {acc : List α}
    (h : acc.Nodup) : (l.foldl insertKey acc).Nodup := by
  induction l generalizing acc with
  | nil => exact h
  | cons x xs ih => exact ih (nodup_insertKey h x)

theorem pydedup_nodup {α : Type} [DecidableEq α] (l : List α) : (pydedup l).Nodup :=
  pydedup_go_nodup l List.nodup_nil

/-- Generic preservation of a projection through a left fold. -/
theorem foldl_proj {σ α β : Type} (f : σ → α → σ) (proj : σ → β)
    (hf : ∀ s x, proj (f s x) = proj s) :
    ∀ (l : List α) (s : σ), proj (l.foldl f s) = proj s := by
  intro l
  induction l with
  | nil => intro s; rfl
  | cons x xs ih => intro s; rw [List.foldl_cons, ih, hf]

/-- Generic monotonicity of a preorder-like relation through a left fold. -/
theorem foldl_rel {σ α : Type} (R : σ → σ → Prop) (f : σ → α → σ)
    (hrefl : ∀ s, R s s) (htrans : ∀ a b c, R a b → R b c → R a c)
    (hf : ∀ s x, R s (f s x)) :
    ∀ (l : List α) (s : σ), R s (l.foldl f s) := by
  intro l
  induction l with
  | nil => intro s; exact hrefl s
  | cons x xs ih => intro s; exact htrans _ _ _ (hf s x) (ih (f s x))

/-!
## Offset-style pagination loops (claim C4)

`src/gder_logic.py:get_beatmapsets` (lines 64-104) and
`src/scan_logic.py:get_beatmapsets` (lines 112-150) run a `while True` loop
per status type, requesting pages at increasing offsets.  The remote server is
modelled by the finite script of responses it gives to the successive
requests of one such loop: `none` is a 404, `some items` a 200 JSON list.
Once the script is exhausted, the server answers with empty pages (an
endpoint past its data), which both loops treat as termination.  The second
component of each result counts the HTTP requests issued by the loop.
-/

/-- One page response: `none` = HTTP 404, `some items` = a JSON list. -/
abbrev PageResp := Option (List Nat)

/-- Inner pagination loop of `gder_logic.py:get_beatmapsets`
(lines 74-101): breaks on 404, on an empty page, and - unlike the
`scan_logic.py` variant - on a page shorter than `limit`. -/
def gder_pages (limit : Nat) : List PageResp → List Nat × Nat
  | [] => ([], 1)
  | none :: _ => ([], 1)
  | some page :: rest =>
    if page.isEmpty then ([], 1)
    else if page.length < limit then (page, 1)
    else
      let r := gder_pages limit rest
      (page ++ r.1, r.2 + 1)

/-- Inner pagination loop of `scan_logic.py:get_beatmapsets`
(lines 123-147) and of its siblings `get_nominated_beatmapsets` and
`get_guest_beatmapsets`: breaks only on 404 or an empty page; there is no
short-page check, so after a short page a further request is issued.
(`limit` is carried to mirror the request parameters; the loop body never
consults it.) -/
def scan_pages (limit : Nat) : List PageResp → List Nat × Nat
  | [] => ([], 1)
  | none :: _ => ([], 1)
  | some page :: rest =>
    if page.isEmpty then ([], 1)
    else
      let r := scan_pages limit rest
      (page ++ r.1, r.2 + 1)

/-- `gder_logic.py:get_beatmapsets`: concatenates the per-type loops over
status types `ranked` and `loved` with page limit 100 (each item is tagged
with a `status_category` field in the source; the tag does not affect the
pagination and is omitted).  The request count is summed. -/
def gder_get_beatmapsets (scripts : String → List PageResp) : List Nat × Nat :=
  let r1 := gder_pages 100 (scripts "ranked")
  let r2 := gder_pages 100 (scripts "loved")
  (r1.1 ++ r2.1, r1.2 + r2.2)

/-- `scan_logic.py:get_beatmapsets`: per-type loops over
`ranked_and_approved` and `loved` with page limit 50. -/
def scan_get_beatmapsets (scripts : String → List PageResp) : List Nat × Nat :=
  let r1 := scan_pages 50 (scripts "ranked_and_approved")
  let r2 := scan_pages 50 (scripts "loved")
  (r1.1 ++ r2.1, r1.2 + r2.2)

/-!
## Scan cache load (claim C8)

`src/scan_logic.py:_load_cache` (lines 936-948).  The on-disk file is either
missing, unparseable JSON, or a parsed JSON object.  The parsed object is
modelled with the fields the scan reads; a key absent from the file is
represented by `[]` (respectively `none` for `cache_version`), matching how
the source consumes it through `.get(..., default)`.
-/

def CACHE_VERSION : Nat := 2

structure EntryJson where
  count : Nat
  last_date : String
  mode_counts : List (String × Nat)
deriving DecidableEq

structure CacheJson where
  cache_version : Option Nat
  scanned_ids : List Nat
  pair_counts : List (String × EntryJson)
  individual_counts : List (String × EntryJson)
  gd_counts : List (String × EntryJson)
  host_counts : List (String × EntryJson)
  user_modes : List (String × List String)
deriving DecidableEq

/-- The `_load_cache` fallback value
`{'scanned_ids': [], 'pair_counts': {}, 'cache_version': CACHE_VERSION}`. -/
def emptyCacheJson : CacheJson :=
  { cache_version := some CACHE_VERSION
    scanned_ids := []
    pair_counts := []
    individual_counts := []
    gd_counts := []
    host_counts := []
    user_modes := [] }

/-- State of the cache file as `_load_cache` observes it: absent
(`os.path.exists` is false), present but raising on `json.load` (any
exception), or parsed. -/
inductive CacheFile where
  | missing : CacheFile
  | corrupt : CacheFile
  | parsed : CacheJson → CacheFile

/-- `src/scan_logic.py:_load_cache` (lines 936-948).  Total - the source
catches every exception - and version-gated via
`cache.get('cache_version', 1) < CACHE_VERSION`. -/
def load_cache : CacheFile → CacheJson
  | .missing => emptyCacheJson
  | .corrupt => emptyCacheJson
  | .parsed c =>
    if c.cache_version.getD 1 < CACHE_VERSION then emptyCacheJson else c

/-!
## Data model of the global scan

Shallow search results (`search_ranked_beatmapsets` preserves `id`,
`user_id`, `ranked_date`, `last_updated` plus display fields unused by the
counters) and the relevant parts of a 200 deep-fetch response of
`GET /beatmapsets/{id}`.
-/

structure SetRef where
  id : Nat
  user_id : Option Nat
  ranked_date : Option String
  last_updated : Option String
deriving DecidableEq

structure Beatmap where
  mode : Option String
  owners : List Nat
  user_id : Option Nat
deriving DecidableEq

structure Nom where
  nominator_id : Nat
  rulesets : List String
deriving DecidableEq

/-- Payload of a successful deep fetch.  `events_noms` holds the nominator
records the events-API fallback of `process_nominator_set` (lines 332-366)
would append when `current_nominations` is empty; that fallback is one more
HTTP exchange whose outcome is data for this model. -/
structure DeepData where
  user_id : Option Nat
  beatmaps : List Beatmap
  current_nominations : List Nom
  events_noms : List Nom
deriving DecidableEq

/-- Python truthiness of an optional integer (`if x:`): false for `None`
and for `0`. -/
def truthyNat : Option Nat → Bool
  | none => false
  | some n => n != 0

/-- Python `a or b` for an optional string `a` (`None` and `""` are falsy). -/
def pyOrS (a : Option String) (b : String) : String :=
  match a with
  | none => b
  | some s => if s = "" then b else s

/-- Python string `<`: lexicographic comparison of code points.
(Structurally recursive on the character lists so that concrete runs
evaluate inside the kernel; it agrees with the library's iterator-based
`String` order.) -/
def strLtB : List Char → List Char → Bool
  | [], [] => false
  | [], _ :: _ => true
  | _ :: _, [] => false
  | a :: as, b :: bs =>
    if a < b then true else if b < a then false else strLtB as bs

def pyStrLt (a b : String) : Bool :=
  strLtB a.data b.data

/-- `(x.get('ranked_date') or x.get('last_updated') or '').split('T')[0]`. -/
def dateOf (s : SetRef) : String :=
  String.mk ((pyOrS s.ranked_date (pyOrS s.last_updated "")).data.takeWhile
    (fun c => c ≠ 'T'))

/-- Result tuple of `process_nominator_set` (minus the unused set title). -/
structure PNSRes where
  noms : List Nom
  gdm : List (Nat × List String)
  set_modes : List String
  host_id : Option Nat
  host_modes : List String

/-- Add `mode` to the mode set of user `u` in the guest-difficulty map
(`gd_user_modes[uid].add(bm_mode)` with defaultdict-style key creation). -/
def addGdMode (gdm : List (Nat × List String)) (u : Nat) (mode : String) :
    List (Nat × List String) :=
  if gdm.any (fun g => g.1 == u) then
    gdm.map (fun g => if g.1 == u then (g.1, insertKey g.2 mode) else g)
  else gdm ++ [(u, [mode])]

/-- Accumulator of the per-beatmap extraction loop of
`process_nominator_set` (lines 371-391). -/
structure ExtractAcc where
  set_modes : List String
  gdm : List (Nat × List String)
  host_modes : List String

/-- Body of the `for owner in owners` loop (lines 376-383). -/
def ownerStep (h : Nat) (mode : String) (acc : ExtractAcc) (o : Nat) : ExtractAcc :=
  if o = h then { acc with host_modes := insertKey acc.host_modes mode }
  else { acc with gdm := addGdMode acc.gdm o mode }

/-- One iteration of the `for beatmap in data.get('beatmaps', [])` loop:
classify each difficulty by its owners list (when non-empty) or its sole
creator, against the set host `h`. -/
def extractStep (h : Nat) (acc : ExtractAcc) (b : Beatmap) : ExtractAcc :=
  let mode := b.mode.getD "osu"
  let acc := { acc with set_modes := insertKey acc.set_modes mode }
  if b.owners ≠ [] then
    b.owners.foldl (ownerStep h mode) acc
  else
    match b.user_id with
    | some c =>
      if c = h then { acc with host_modes := insertKey acc.host_modes mode }
      else if c ≠ 0 then { acc with gdm := addGdMode acc.gdm c mode }
      else acc
    | none => acc

/-- The nomination list `process_nominator_set` ends up with: the mapped
`current_nominations` when non-empty, otherwise the events-fallback ones. -/
def setNoms (d : DeepData) : List Nom :=
  if d.current_nominations = [] then d.events_noms else d.current_nominations

/-- Pure core of `src/scan_logic.py:process_nominator_set` (lines 291-402).
`resp = none` covers every failure path (non-200 status, timeout/exception,
missing token): those return a `None` host id, empty nominations and guest
map, and - via the final `if not host_modes` fallback - `{'osu'}` as host
modes.  On a 200 response the host and per-difficulty data are extracted
only when the host id is truthy, and the same host-mode fallback applies. -/
def process_nominator_set (resp : Option DeepData) : PNSRes :=
  match resp with
  | none =>
    { noms := [], gdm := [], set_modes := [], host_id := none,
      host_modes := ["osu"] }
  | some d =>
    let noms := setNoms d
    let acc :=
      if truthyNat d.user_id then
        d.beatmaps.foldl (extractStep (d.user_id.getD 0)) ⟨[], [], []⟩
      else ⟨[], [], []⟩
    let host_modes :=
      if acc.host_modes = [] then
        (if acc.set_modes = [] then ["osu"] else acc.set_modes)
      else acc.host_modes
    { noms := noms, gdm := acc.gdm, set_modes := acc.set_modes,
      host_id := d.user_id, host_modes := host_modes }

/-!
## Counter state of the global scan

One persistent counter map is a total function from key to entry plus the
explicit key list of the underlying (default)dict.
-/

structure Entry where
  count : Nat
  last_date : String
  mode_counts : String → Nat

def defaultEntry : Entry := { count := 0, last_date := "", mode_counts := fun _ => 0 }

/-- `if date and date > e['last_date']: e['last_date'] = date`. -/
def updDate (e : Entry) (date : String) : Entry :=
  if date ≠ "" ∧ pyStrLt e.last_date date then { e with last_date := date } else e

/-- `mode_counts[r] += 1`. -/
def bumpMode (mc : String → Nat) (r : String) : String → Nat :=
  fun m => if m = r then mc m + 1 else mc m

/-- `for r in rs: mode_counts[r] += 1`. -/
def bumpModes (mc : String → Nat) (rs : List String) : String → Nat :=
  rs.foldl bumpMode mc

/-- In-memory scan state: `scanned_ids` plus the four counter dicts
(`user_modes` is write-only for the claims and omitted, see the header). -/
structure ScanState where
  scanned_ids : List Nat
  pairKeys : List (Nat × Nat)
  pair_counts : Nat × Nat → Entry
  indKeys : List Nat
  individual_counts : Nat → Entry
  gdKeys : List Nat
  gd_counts : Nat → Entry
  hostKeys : List Nat
  host_counts : Nat → Entry

def emptyState : ScanState :=
  { scanned_ids := []
    pairKeys := [], pair_counts := fun _ => defaultEntry
    indKeys := [], individual_counts := fun _ => defaultEntry
    gdKeys := [], gd_counts := fun _ => defaultEntry
    hostKeys := [], host_counts := fun _ => defaultEntry }

/-- The environment of one run: authentication outcome, the corpus search
result, and the two deep-fetch oracles (main pass and retry pass). -/
structure World where
  token_ok : Bool
  corpus : List SetRef
  fetch1 : Nat → Option DeepData
  fetch2 : Nat → Option DeepData

inductive ScanResult where
  | errorResult : String → ScanResult
  | ok : ScanState → ScanResult

def ScanResult.isOk : ScanResult → Bool
  | .errorResult _ => false
  | .ok _ => true

/-- Project the final state of a successful run (`emptyState` on error). -/
def extractSt : ScanResult → ScanState
  | .errorResult _ => emptyState
  | .ok st => st

/-!
## Per-set merge steps of `global_bn_duo_scan`

The counter-merging code of the main worker pass (lines 1064-1127); the
retry pass (lines 1146-1203) repeats it with a slightly different host-mode
refinement.
-/

/-- `n.get('rulesets', []) or ['osu']` (an empty list is falsy). -/
def rulesetsOr (l : List String) : List String :=
  if l = [] then ["osu"] else l

/-- `unique_noms = {n['nominator_id']: n for n in noms}`: key order is first
occurrence, the value is the last nomination with that id. -/
def insertNom (acc : List Nom) (n : Nom) : List Nom :=
  if acc.any (fun m => m.nominator_id == n.nominator_id) then
    acc.map (fun m => if m.nominator_id == n.nominator_id then n else m)
  else acc ++ [n]

def uniqueNoms (noms : List Nom) : List Nom :=
  noms.foldl insertNom []

/-- `sorted(unique_noms.values(), key=lambda x: x['nominator_id'])`.
Insertion sort; it agrees with Python's stable sort because the input
(a dict's values) has pairwise distinct nominator ids. -/
def insertSorted (n : Nom) : List Nom → List Nom
  | [] => [n]
  | m :: ms =>
    if n.nominator_id ≤ m.nominator_id then n :: m :: ms
    else m :: insertSorted n ms

def sortNoms (l : List Nom) : List Nom :=
  l.foldr insertSorted []

/-- `itertools.combinations(l, 2)`: ordered pairs of positions i < j. -/
def pairsOf {α : Type} : List α → List (α × α)
  | [] => []
  | x :: xs => xs.map (fun y => (x, y)) ++ pairsOf xs

/-- Python set intersection on deduplicated lists. -/
def pyInter (l1 l2 : List String) : List String :=
  l1.filter (fun x => x ∈ l2)

/-- Python set union as a deduplicated list. -/
def pyUnion (l1 l2 : List String) : List String :=
  pydedup (l1 ++ l2)

/-- Body of `for nid, n in unique_noms.items()` (lines 1080-1089):
one individual-nomination credit, date refresh, and one per-mode sub-count
per entry of the nomination's ruleset list. -/
def indStep (date : String) (st : ScanState) (n : Nom) : ScanState :=
  let e := st.individual_counts n.nominator_id
  let e := { e with count := e.count + 1 }
  let e := updDate e date
  let e := { e with mode_counts := bumpModes e.mode_counts (rulesetsOr n.rulesets) }
  { st with
    indKeys := insertKey st.indKeys n.nominator_id
    individual_counts := setFn st.individual_counts n.nominator_id e }

/-- Lines 1098-1102: `shared_modes = set(r1) & set(r2)`, falling back to
`set(r1) | set(r2)` when the intersection is empty, each ruleset list
first defaulted by `... or ['osu']`. -/
def sharedModes (n1 n2 : Nom) : List String :=
  let r1 := pydedup (rulesetsOr n1.rulesets)
  let r2 := pydedup (rulesetsOr n2.rulesets)
  let i := pyInter r1 r2
  if i = [] then pyUnion r1 r2 else i

/-- Body of the `for n1, n2 in combinations(...)` loop (lines 1092-1105):
one duo credit for the id-ordered pair, date refresh, and per-mode
sub-counts over the shared modes. -/
def pairStep (date : String) (st : ScanState) (p : Nom × Nom) : ScanState :=
  let key := (p.1.nominator_id, p.2.nominator_id)
  let e := st.pair_counts key
  let e := { e with count := e.count + 1 }
  let e := updDate e date
  let e := { e with mode_counts := bumpModes e.mode_counts (sharedModes p.1 p.2) }
  { st with
    pairKeys := insertKey st.pairKeys key
    pair_counts := setFn st.pair_counts key e }

/-- The `if noms:` block (lines 1077-1105): individual credits over the
deduplicated nominations, then pair credits over all combinations of the
id-sorted unique nominations when there are at least two. -/
def applyNoms (date : String) (st : ScanState) (noms : List Nom) : ScanState :=
  if noms = [] then st
  else
    let un := uniqueNoms noms
    let st := un.foldl (indStep date) st
    if 2 ≤ un.length then
      (pairsOf (sortNoms un)).foldl (pairStep date) st
    else st

/-- Body of `for gd_uid, gd_modes in gd_user_modes.items()` (lines
1108-1115): one guest-difficulty credit per set, date refresh, one per-mode
sub-count per mode the user mapped in this set. -/
def gdStep (date : String) (st : ScanState) (g : Nat × List String) : ScanState :=
  let e := st.gd_counts g.1
  let e := { e with count := e.count + 1 }
  let e := updDate e date
  let e := { e with mode_counts := bumpModes e.mode_counts g.2 }
  { st with
    gdKeys := insertKey st.gdKeys g.1
    gd_counts := setFn st.gd_counts g.1 e }

/-- Lines 1120-1123: when the host already has a counter entry and a
non-zero `osu` sub-count, subtract the default `osu` credit recorded by the
shallow pass. -/
def osuAdjust (st : ScanState) (h : Nat) : ScanState :=
  if h ∈ st.hostKeys then
    let oc := (st.host_counts h).mode_counts "osu"
    if oc ≠ 0 then
      { st with
        host_counts := setFn st.host_counts h
          { st.host_counts h with
            mode_counts := setFn (st.host_counts h).mode_counts "osu" (oc - 1) } }
    else st
  else st

/-- Host-mode refinement of the main pass (lines 1118-1127): the `osu`
adjustment, then one sub-count per refined host mode. -/
def hostRefineMain (st : ScanState) (h : Nat) (modes : List String) : ScanState :=
  let st1 := osuAdjust st h
  let e := st1.host_counts h
  { st1 with
    hostKeys := insertKey st1.hostKeys h
    host_counts := setFn st1.host_counts h
      { e with mode_counts := bumpModes e.mode_counts modes } }

/-- Host-mode refinement of the retry pass (lines 1194-1200): no `osu`
adjustment; ensure the entry exists, then add the refined host modes. -/
def hostRefineRetry (st : ScanState) (h : Nat) (modes : List String) : ScanState :=
  let st1 := { st with hostKeys := insertKey st.hostKeys h }
  let e := st1.host_counts h
  { st1 with
    hostKeys := insertKey st1.hostKeys h
    host_counts := setFn st1.host_counts h
      { e with mode_counts := bumpModes e.mode_counts modes } }

/-- Host id of a deep-fetch outcome as the scan's failure test observes it:
`process_nominator_set` hands back `data.get('user_id')` on a 200 response
and `None` on every failure. -/
def deepHost (o : Option DeepData) : Option Nat :=
  match o with
  | none => none
  | some d => d.user_id

/-- The shallow host pass (lines 1029-1041): one host credit per new set
carrying a truthy `user_id`, dated from the search data, with a default
`osu` sub-count (`user_modes` update omitted, see the header). -/
def shallowHost (st : ScanState) (s : SetRef) : ScanState :=
  if truthyNat s.user_id then
    let h := s.user_id.getD 0
    let date := dateOf s
    let e := st.host_counts h
    let e := { e with count := e.count + 1 }
    let e := updDate e date
    let e := { e with mode_counts := bumpMode e.mode_counts "osu" }
    { st with
      hostKeys := insertKey st.hostKeys h
      host_counts := setFn st.host_counts h e }
  else st

/-- One completed future of the main worker pass (lines 1063-1131): a
`None` host id (or an exception) queues the set for retry; otherwise the
set id is recorded as scanned and its nomination, guest-difficulty and
host-mode contributions are merged.  (With the corpus ids unique,
`set_lookup.get(bset['id'])` is the submitted reference itself.) -/
def mainStep (w : World) (acc : ScanState × List SetRef) (s : SetRef) :
    ScanState × List SetRef :=
  let r := process_nominator_set (w.fetch1 s.id)
  match r.host_id with
  | none => (acc.1, acc.2 ++ [s])
  | some h =>
    let st := { acc.1 with scanned_ids := insertKey acc.1.scanned_ids s.id }
    let date := dateOf s
    let st := applyNoms date st r.noms
    let st := r.gdm.foldl (gdStep date) st
    let st :=
      if h ≠ 0 ∧ r.host_modes ≠ [] then hostRefineMain st h r.host_modes else st
    (st, acc.2)

/-- One completed future of the retry pass (lines 1146-1203): a second
failure is skipped permanently for this run; a success is merged exactly
like the main pass but with the retry host-mode refinement. -/
def retryStep (w : World) (st : ScanState) (s : SetRef) : ScanState :=
  let r := process_nominator_set (w.fetch2 s.id)
  match r.host_id with
  | none => st
  | some h =>
    let st := { st with scanned_ids := insertKey st.scanned_ids s.id }
    let date := dateOf s
    let st := applyNoms date st r.noms
    let st := r.gdm.foldl (gdStep date) st
    if h ≠ 0 ∧ r.host_modes ≠ [] then hostRefineRetry st h r.host_modes else st

/-- `new_sets = [s for s in all_sets if s['id'] not in scanned_ids]`. -/
def newSetsOf (w : World) (st : ScanState) : List SetRef :=
  w.corpus.filter (fun s => !(st.scanned_ids.contains s.id))

/-- Truthiness test of the four counter defaultdicts (line 1207):
a defaultdict is falsy exactly when it has no keys. -/
def keysEmpty (st : ScanState) : Bool :=
  st.pairKeys.isEmpty && st.indKeys.isEmpty && st.gdKeys.isEmpty &&
    st.hostKeys.isEmpty

/-- The state transformation of one run (steps 3-4.5 of
`global_bn_duo_scan`): filter to new sets; if any, run the shallow host
pass, the main deep-fetch pass, then the retry pass over the failures. -/
def scanBody (w : World) (st0 : ScanState) : ScanState :=
  let ns := newSetsOf w st0
  if ns.isEmpty then st0
  else
    let stA := ns.foldl shallowHost st0
    let pr := ns.foldl (mainStep w) (stA, [])
    pr.2.foldl (retryStep w) pr.1

/-- `src/scan_logic.py:global_bn_duo_scan` (lines 958-1334) restricted to
its persistent scan state: authentication, corpus search, incremental
merge, and the explicit error results.  Cache loading is the given `st0`
(see `load_cache` for the file-level contract); name resolution, the four
sorted leaderboards and the JSON outputs are derived views of the returned
state and are not claimed. -/
def global_bn_duo_scan (w : World) (st0 : ScanState) : ScanResult :=
  if !w.token_ok then .errorResult "Authentication failed"
  else if w.corpus.isEmpty then .errorResult "No ranked beatmapsets found"
  else if keysEmpty (scanBody w st0) then .errorResult "No data found"
  else .ok (scanBody w st0)

/-!
## Basic lemmas on the counter primitives
-/

theorem setFn_same {α β : Type} [DecidableEq α] (f : α → β) (k : α) (v : β) :
    setFn f k v k = v := by
  simp [setFn]

theorem setFn_other {α β : Type} [DecidableEq α] (f : α → β) (k : α) (v : β)
    (x : α) (h : x ≠ k) : setFn f k v x = f x := by
  simp [setFn, h]

theorem updDate_count (e : Entry) (d : String) : (updDate e d).count = e.count := by
  unfold updDate
  split <;> rfl

theorem updDate_modes (e : Entry) (d : String) :
    (updDate e d).mode_counts = e.mode_counts := by
  unfold updDate
  split <;> rfl

theorem bumpModes_apply (rs : List String) (mc : String → Nat) (m : String) :
    bumpModes mc rs m = mc m + rs.count m := by
  induction rs generalizing mc with
  | nil => simp [bumpModes, List.count_nil]
  | cons r rest ih =>
    show bumpModes (bumpMode mc r) rest m = _
    rw [ih, List.count_cons]
    by_cases hm : m = r
    · subst hm
      simp [bumpMode]
      omega
    · have : (m == r) = false := by simp [hm]
      simp [bumpMode, hm, this]
      exact fun h => hm h.symm

theorem count_nodup_indicator {α : Type} [DecidableEq α] {l : List α}
    (h : l.Nodup) (a : α) : l.count a = if a ∈ l then 1 else 0 := by
  split
  · exact List.count_eq_one_of_mem h (by assumption)
  · exact List.count_eq_zero.mpr (by assumption)

/-!
## Claim C7: duo per-mode attribution
-/

theorem mem_pyInter (l1 l2 : List String) (a : String) :
    a ∈ pyInter l1 l2 ↔ a ∈ l1 ∧ a ∈ l2 := by
  unfold pyInter
  simp [List.mem_filter]

theorem pyInter_nil_iff (l1 l2 : List String) :
    pyInter l1 l2 = [] ↔ ∀ x ∈ l1, x ∉ l2 := by
  unfold pyInter
  rw [List.filter_eq_nil_iff]
  simp

theorem mem_pyUnion (l1 l2 : List String) (a : String) :
    a ∈ pyUnion l1 l2 ↔ a ∈ l1 ∨ a ∈ l2 := by
  unfold pyUnion
  rw [mem_pydedup_iff]
  simp

/-- A nominator's per-set mode scope as the claim words it: the rulesets
the API reported for the nomination, defaulting to the single implicit
`osu` mode when the API gives none. -/
def specScope (n : Nom) : List String :=
  if n.rulesets = [] then ["osu"] else n.rulesets

theorem specScope_eq (n : Nom) : specScope n = rulesetsOr n.rulesets := rfl

/-- The claim's attribution rule, stated from its words: a mode receives a
duo sub-count exactly when it lies in the intersection of the two scopes if
that intersection is non-empty, and in their union otherwise. -/
def specDuoMode (n1 n2 : Nom) (m : String) : Prop :=
  if ∃ x ∈ specScope n1, x ∈ specScope n2 then
    m ∈ specScope n1 ∧ m ∈ specScope n2
  else m ∈ specScope n1 ∨ m ∈ specScope n2

instance instDecidableSpecDuoMode (n1 n2 : Nom) (m : String) :
    Decidable (specDuoMode n1 n2 m) := by
  unfold specDuoMode
  infer_instance

theorem sharedModes_nodup (n1 n2 : Nom) : (sharedModes n1 n2).Nodup := by
  simp only [sharedModes]
  split
  · exact pydedup_nodup _
  · exact List.Nodup.filter _ (pydedup_nodup _)

theorem mem_sharedModes (n1 n2 : Nom) (m : String) :
    m ∈ sharedModes n1 n2 ↔ specDuoMode n1 n2 m := by
  simp only [sharedModes, specDuoMode]
  by_cases hi :
      pyInter (pydedup (rulesetsOr n1.rulesets)) (pydedup (rulesetsOr n2.rulesets)) = []
  · have hcond : ¬ ∃ x ∈ specScope n1, x ∈ specScope n2 := by
      rw [pyInter_nil_iff] at hi
      rintro ⟨x, hx1, hx2⟩
      exact hi x ((mem_pydedup_iff _ _).mpr (by rw [specScope_eq] at hx1; exact hx1))
        ((mem_pydedup_iff _ _).mpr (by rw [specScope_eq] at hx2; exact hx2))
    rw [if_pos hi, if_neg hcond, mem_pyUnion, mem_pydedup_iff, mem_pydedup_iff,
      specScope_eq, specScope_eq]
  · have hcond : ∃ x ∈ specScope n1, x ∈ specScope n2 := by
      obtain ⟨x, hx⟩ := List.exists_mem_of_ne_nil _ hi
      rw [mem_pyInter, mem_pydedup_iff, mem_pydedup_iff] at hx
      exact ⟨x, by rw [specScope_eq]; exact hx.1, by rw [specScope_eq]; exact hx.2⟩
    rw [if_neg hi, if_pos hcond, mem_pyInter, mem_pydedup_iff, mem_pydedup_iff,
      specScope_eq, specScope_eq]

theorem sharedModes_count (n1 n2 : Nom) (m : String) :
    (sharedModes n1 n2).count m = if specDuoMode n1 n2 m then 1 else 0 := by
  rw [count_nodup_indicator (sharedModes_nodup n1 n2)]
  exact if_congr (mem_sharedModes n1 n2 m) rfl rfl

/-- C7 (confirmed): when a duo increment is applied for a pair of
co-nominators on a set (`pairStep`, the body of the combinations loop of
`global_bn_duo_scan`), the per-mode sub-counts incremented for that pair
are exactly the intersection of the two nominators' per-set ruleset scopes
when non-empty, and otherwise exactly their union, each scope defaulting to
the single implicit `osu` mode when the API gives no rulesets. -/
theorem claim_c7_duo_mode_attribution (date : String) (st : ScanState)
    (p : Nom × Nom) (m : String) :
    ((pairStep date st p).pair_counts (p.1.nominator_id, p.2.nominator_id)).mode_counts m
      = (st.pair_counts (p.1.nominator_id, p.2.nominator_id)).mode_counts m
        + (if specDuoMode p.1 p.2 m then 1 else 0) := by
  unfold pairStep
  simp only [setFn_same]
  simp only [bumpModes_apply, updDate_modes]
  rw [sharedModes_count]

/-!
## Claim C8: cache load never fails
-/

/-- C8 (confirmed): `_load_cache` is total (the source catches every
exception and checks existence first) and returns the empty-but-valid
default `{'scanned_ids': [], 'pair_counts': {}, 'cache_version':
CACHE_VERSION}` on a missing file, a parse failure, or a stored version
older than `CACHE_VERSION`; otherwise it returns the parsed cache
unchanged. -/
theorem claim_c8_load_cache_total :
    load_cache .missing = emptyCacheJson ∧
    load_cache .corrupt = emptyCacheJson ∧
    emptyCacheJson.scanned_ids = [] ∧
    emptyCacheJson.pair_counts = [] ∧
    emptyCacheJson.cache_version = some CACHE_VERSION ∧
    ∀ c : CacheJson,
      (c.cache_version.getD 1 < CACHE_VERSION →
        load_cache (.parsed c) = emptyCacheJson) ∧
      (¬ c.cache_version.getD 1 < CACHE_VERSION →
        load_cache (.parsed c) = c) := by
  refine ⟨rfl, rfl, rfl, rfl, rfl, fun c => ⟨fun h => ?_, fun h => ?_⟩⟩ <;>
    simp [load_cache, h]

def c8StaleCache : CacheJson :=
  { emptyCacheJson with cache_version := some 1, scanned_ids := [42] }

def c8FreshCache : CacheJson :=
  { cache_version := some 2
    scanned_ids := [7, 9]
    pair_counts := [("1,2", { count := 3, last_date := "2024-05-01", mode_counts := [("osu", 3)] })]
    individual_counts := []
    gd_counts := []
    host_counts := []
    user_modes := [] }

theorem claim_c8_witness :
    load_cache (.parsed c8StaleCache) = emptyCacheJson ∧
    load_cache (.parsed c8FreshCache) = c8FreshCache :=
  ⟨(claim_c8_load_cache_total.2.2.2.2.2 c8StaleCache).1 (by decide),
   (claim_c8_load_cache_total.2.2.2.2.2 c8FreshCache).2 (by decide)⟩

/-!
## Claim C4: pagination termination
-/

/-- C4 (counterexample): the claim asserts that every offset-style per-user
listing fetch stops at a page shorter than the page limit without issuing a
further request.  For the `scan_logic.py` variant this is false: on a
script of one full page (50 items), one short page, then an empty page, the
loop issues 3 requests - one more after the short page - while the
`gder_logic.py` variant issues 2.  Both return the concatenation of the
pages. -/
theorem claim_c4_counterexample :
    scan_pages 50 [some (List.range 50), some [7], some []]
        = (List.range 50 ++ [7], 3) ∧
    gder_pages 50 [some (List.range 50), some [7], some []]
        = (List.range 50 ++ [7], 2) := by
  constructor <;> rfl

/-- C4 (corrected): for any script of full pages followed by a short
non-empty page, `gder_logic.py:get_beatmapsets` returns exactly the
concatenation of the pages after one request per page, never consulting the
script beyond the short page (`rest1` is arbitrary); the `scan_logic.py`
loop returns the same items but terminates only on the next empty (or 404)
page, issuing one further request. -/
theorem claim_c4_amended (limit : Nat) (fulls : List (List Nat))
    (lastPage : List Nat) (rest1 rest2 : List PageResp)
    (hf : ∀ p ∈ fulls, p.length = limit)
    (hpos : 0 < limit)
    (hshort : lastPage.length < limit) (hne : lastPage ≠ []) :
    gder_pages limit (fulls.map some ++ some lastPage :: rest1)
        = (fulls.flatten ++ lastPage, fulls.length + 1) ∧
    scan_pages limit (fulls.map some ++ some lastPage :: some [] :: rest2)
        = (fulls.flatten ++ lastPage, fulls.length + 2) := by
  induction fulls with
  | nil =>
    have hEmpty : lastPage.isEmpty = false := by
      cases lastPage with
      | nil => exact absurd rfl hne
      | cons a l => rfl
    constructor
    · simp [gder_pages, hEmpty, hshort]
    · simp [scan_pages, hEmpty]
  | cons p ps ih =>
    have hp : p.length = limit := hf p (List.mem_cons_self p ps)
    have hpe : p.isEmpty = false := by
      cases p with
      | nil => simp at hp; omega
      | cons a l => rfl
    have hnl : ¬ p.length < limit := by omega
    have ih2 := ih (fun q hq => hf q (List.mem_cons_of_mem p hq))
    constructor
    · show gder_pages limit (some p :: (ps.map some ++ some lastPage :: rest1)) = _
      rw [gder_pages, if_neg (by simp [hpe]), if_neg (by simp [hnl])]
      rw [ih2.1]
      simp [List.flatten_cons, List.append_assoc]
    · show scan_pages limit (some p :: (ps.map some ++ some lastPage :: some [] :: rest2)) = _
      rw [scan_pages, if_neg (by simp [hpe])]
      rw [ih2.2]
      simp [List.flatten_cons, List.append_assoc]

theorem claim_c4_witness :
    gder_pages 2 [some [1, 2], some [3], some [9]] = ([1, 2, 3], 2) ∧
    scan_pages 2 [some [1, 2], some [3], some [], some [9]] = ([1, 2, 3], 3) :=
  claim_c4_amended 2 [[1, 2]] [3] [some [9]] [some [9]]
    (by decide) (by decide) (by decide) (by decide)

/-!
## Per-step bookkeeping lemmas
-/

theorem pns_host_id (o : Option DeepData) :
    (process_nominator_set o).host_id = deepHost o := by
  cases o <;> rfl

theorem indStep_others (d : String) (st : ScanState) (n : Nom) :
    (indStep d st n).scanned_ids = st.scanned_ids ∧
    (indStep d st n).pairKeys = st.pairKeys ∧
    (indStep d st n).pair_counts = st.pair_counts ∧
    (indStep d st n).gdKeys = st.gdKeys ∧
    (indStep d st n).gd_counts = st.gd_counts ∧
    (indStep d st n).hostKeys = st.hostKeys ∧
    (indStep d st n).host_counts = st.host_counts :=
  ⟨rfl, rfl, rfl, rfl, rfl, rfl, rfl⟩

theorem pairStep_others (d : String) (st : ScanState) (p : Nom × Nom) :
    (pairStep d st p).scanned_ids = st.scanned_ids ∧
    (pairStep d st p).indKeys = st.indKeys ∧
    (pairStep d st p).individual_counts = st.individual_counts ∧
    (pairStep d st p).gdKeys = st.gdKeys ∧
    (pairStep d st p).gd_counts = st.gd_counts ∧
    (pairStep d st p).hostKeys = st.hostKeys ∧
    (pairStep d st p).host_counts = st.host_counts :=
  ⟨rfl, rfl, rfl, rfl, rfl, rfl, rfl⟩

theorem gdStep_others (d : String) (st : ScanState) (g : Nat × List String) :
    (gdStep d st g).scanned_ids = st.scanned_ids ∧
    (gdStep d st g).pairKeys = st.pairKeys ∧
    (gdStep d st g).pair_counts = st.pair_counts ∧
    (gdStep d st g).indKeys = st.indKeys ∧
    (gdStep d st g).individual_counts = st.individual_counts ∧
    (gdStep d st g).hostKeys = st.hostKeys ∧
    (gdStep d st g).host_counts = st.host_counts :=
  ⟨rfl, rfl, rfl, rfl, rfl, rfl, rfl⟩

theorem shallowHost_others (st : ScanState) (s : SetRef) :
    (shallowHost st s).scanned_ids = st.scanned_ids ∧
    (shallowHost st s).pairKeys = st.pairKeys ∧
    (shallowHost st s).pair_counts = st.pair_counts ∧
    (shallowHost st s).indKeys = st.indKeys ∧
    (shallowHost st s).individual_counts = st.individual_counts ∧
    (shallowHost st s).gdKeys = st.gdKeys ∧
    (shallowHost st s).gd_counts = st.gd_counts := by
  unfold shallowHost
  split
  · exact ⟨rfl, rfl, rfl, rfl, rfl, rfl, rfl⟩
  · exact ⟨rfl, rfl, rfl, rfl, rfl, rfl, rfl⟩

theorem osuAdjust_others (st : ScanState) (h : Nat) :
    (osuAdjust st h).scanned_ids = st.scanned_ids ∧
    (osuAdjust st h).pairKeys = st.pairKeys ∧
    (osuAdjust st h).pair_counts = st.pair_counts ∧
    (osuAdjust st h).indKeys = st.indKeys ∧
    (osuAdjust st h).individual_counts = st.individual_counts ∧
    (osuAdjust st h).gdKeys = st.gdKeys ∧
    (osuAdjust st h).gd_counts = st.gd_counts ∧
    (osuAdjust st h).hostKeys = st.hostKeys := by
  simp only [osuAdjust]
  split
  · split
    · exact ⟨rfl, rfl, rfl, rfl, rfl, rfl, rfl, rfl⟩
    · exact ⟨rfl, rfl, rfl, rfl, rfl, rfl, rfl, rfl⟩
  · exact ⟨rfl, rfl, rfl, rfl, rfl, rfl, rfl, rfl⟩

theorem osuAdjust_count (st : ScanState) (h : Nat) (u : Nat) :
    ((osuAdjust st h).host_counts u).count = (st.host_counts u).count := by
  simp only [osuAdjust]
  by_cases hu : u = h
  · subst hu
    split
    · split
      · simp [setFn_same]
      · rfl
    · rfl
  · split
    · split
      · simp [setFn_other _ _ _ _ hu]
      · rfl
    · rfl

theorem hostRefineMain_others (st : ScanState) (h : Nat) (ms : List String) :
    (hostRefineMain st h ms).scanned_ids = st.scanned_ids ∧
    (hostRefineMain st h ms).pairKeys = st.pairKeys ∧
    (hostRefineMain st h ms).pair_counts = st.pair_counts ∧
    (hostRefineMain st h ms).indKeys = st.indKeys ∧
    (hostRefineMain st h ms).individual_counts = st.individual_counts ∧
    (hostRefineMain st h ms).gdKeys = st.gdKeys ∧
    (hostRefineMain st h ms).gd_counts = st.gd_counts := by
  obtain ⟨h1, h2, h3, h4, h5, h6, h7, h8⟩ := osuAdjust_others st h
  exact ⟨h1, h2, h3, h4, h5, h6, h7⟩

theorem hostRefineRetry_others (st : ScanState) (h : Nat) (ms : List String) :
    (hostRefineRetry st h ms).scanned_ids = st.scanned_ids ∧
    (hostRefineRetry st h ms).pairKeys = st.pairKeys ∧
    (hostRefineRetry st h ms).pair_counts = st.pair_counts ∧
    (hostRefineRetry st h ms).indKeys = st.indKeys ∧
    (hostRefineRetry st h ms).individual_counts = st.individual_counts ∧
    (hostRefineRetry st h ms).gdKeys = st.gdKeys ∧
    (hostRefineRetry st h ms).gd_counts = st.gd_counts :=
  ⟨rfl, rfl, rfl, rfl, rfl, rfl, rfl⟩

theorem indStep_count_delta (d : String) (st : ScanState) (n : Nom) (u : Nat) :
    ((indStep d st n).individual_counts u).count
      = (st.individual_counts u).count + (if u = n.nominator_id then 1 else 0) := by
  unfold indStep
  by_cases hu : u = n.nominator_id
  · subst hu
    simp [setFn_same, updDate_count]
  · simp [setFn_other _ _ _ _ hu, hu]

theorem indStep_modes_delta (d : String) (st : ScanState) (n : Nom) (u : Nat)
    (m : String) :
    ((indStep d st n).individual_counts u).mode_counts m
      = (st.individual_counts u).mode_counts m
        + (if u = n.nominator_id then (rulesetsOr n.rulesets).count m else 0) := by
  unfold indStep
  by_cases hu : u = n.nominator_id
  · subst hu
    simp [setFn_same, updDate_modes, bumpModes_apply]
  · simp [setFn_other _ _ _ _ hu, hu]

theorem pairStep_count_delta (d : String) (st : ScanState) (p : Nom × Nom)
    (k : Nat × Nat) :
    ((pairStep d st p).pair_counts k).count
      = (st.pair_counts k).count
        + (if k = (p.1.nominator_id, p.2.nominator_id) then 1 else 0) := by
  unfold pairStep
  by_cases hk : k = (p.1.nominator_id, p.2.nominator_id)
  · subst hk
    simp [setFn_same, updDate_count]
  · simp [setFn_other _ _ _ _ hk, hk]

theorem pairStep_modes_delta (d : String) (st : ScanState) (p : Nom × Nom)
    (k : Nat × Nat) (m : String) :
    ((pairStep d st p).pair_counts k).mode_counts m
      = (st.pair_counts k).mode_counts m
        + (if k = (p.1.nominator_id, p.2.nominator_id)
            then (sharedModes p.1 p.2).count m else 0) := by
  unfold pairStep
  by_cases hk : k = (p.1.nominator_id, p.2.nominator_id)
  · subst hk
    simp [setFn_same, updDate_modes, bumpModes_apply]
  · simp [setFn_other _ _ _ _ hk, hk]

theorem gdStep_count_delta (d : String) (st : ScanState) (g : Nat × List String)
    (u : Nat) :
    ((gdStep d st g).gd_counts u).count
      = (st.gd_counts u).count + (if u = g.1 then 1 else 0) := by
  unfold gdStep
  by_cases hu : u = g.1
  · subst hu
    simp [setFn_same, updDate_count]
  · simp [setFn_other _ _ _ _ hu, hu]

theorem gdStep_modes_delta (d : String) (st : ScanState) (g : Nat × List String)
    (u : Nat) (m : String) :
    ((gdStep d st g).gd_counts u).mode_counts m
      = (st.gd_counts u).mode_counts m + (if u = g.1 then g.2.count m else 0) := by
  unfold gdStep
  by_cases hu : u = g.1
  · subst hu
    simp [setFn_same, updDate_modes, bumpModes_apply]
  · simp [setFn_other _ _ _ _ hu, hu]

theorem shallowHost_count_delta (st : ScanState) (s : SetRef) (u : Nat) :
    ((shallowHost st s).host_counts u).count
      = (st.host_counts u).count
        + (if s.user_id = some u ∧ u ≠ 0 then 1 else 0) := by
  unfold shallowHost
  by_cases ht : truthyNat s.user_id = true
  · rw [if_pos ht]
    cases hs : s.user_id with
    | none =>
      rw [hs] at ht
      exact absurd ht (by simp [truthyNat])
    | some h =>
      rw [hs] at ht
      have h0 : h ≠ 0 := by simpa [truthyNat] using ht
      by_cases hu : u = h
      · subst hu
        rw [if_pos ⟨rfl, h0⟩]
        simp [Option.getD_some, setFn_same, updDate_count]
      · rw [if_neg (by rintro ⟨heq, -⟩; exact hu (Option.some.inj heq).symm)]
        simp only [Option.getD_some]
        rw [setFn_other _ _ _ _ hu]
        omega
  · rw [if_neg ht]
    have hcond : ¬(s.user_id = some u ∧ u ≠ 0) := by
      rintro ⟨heq, hne⟩
      rw [heq] at ht
      exact ht (by simp [truthyNat, hne])
    rw [if_neg hcond]
    omega

theorem hostRefineMain_count (st : ScanState) (h : Nat) (ms : List String)
    (u : Nat) :
    ((hostRefineMain st h ms).host_counts u).count = (st.host_counts u).count := by
  show ((setFn (osuAdjust st h).host_counts h _) u).count = _
  by_cases hu : u = h
  · subst hu
    rw [setFn_same]
    exact osuAdjust_count st u u
  · rw [setFn_other _ _ _ _ hu]
    exact osuAdjust_count st h u

theorem hostRefineRetry_count (st : ScanState) (h : Nat) (ms : List String)
    (u : Nat) :
    ((hostRefineRetry st h ms).host_counts u).count = (st.host_counts u).count := by
  simp only [hostRefineRetry]
  by_cases hu : u = h
  · subst hu
    simp [setFn_same]
  · simp [setFn_other _ _ _ _ hu]

/-!
## Monotonicity of the merge (claims C1 and C9)

`StLE a b` says state `b` extends state `a` in every component the amended
monotonicity claim covers: `scanned_ids` and all key sets grow, every
`count` field grows, and the per-mode sub-counts of the pair, individual
and guest-difficulty counters grow.  The host per-mode sub-counts are
deliberately absent: the `osu` adjustment of the main pass decrements them
(see the C1 counterexample).
-/

structure StLE (a b : ScanState) : Prop where
  scanned : ∀ i ∈ a.scanned_ids, i ∈ b.scanned_ids
  pairKeys : ∀ k ∈ a.pairKeys, k ∈ b.pairKeys
  indKeys : ∀ k ∈ a.indKeys, k ∈ b.indKeys
  gdKeys : ∀ k ∈ a.gdKeys, k ∈ b.gdKeys
  hostKeys : ∀ k ∈ a.hostKeys, k ∈ b.hostKeys
  pair_count : ∀ k, (a.pair_counts k).count ≤ (b.pair_counts k).count
  pair_modes : ∀ k m, (a.pair_counts k).mode_counts m ≤ (b.pair_counts k).mode_counts m
  ind_count : ∀ u, (a.individual_counts u).count ≤ (b.individual_counts u).count
  ind_modes : ∀ u m, (a.individual_counts u).mode_counts m ≤ (b.individual_counts u).mode_counts m
  gd_count : ∀ u, (a.gd_counts u).count ≤ (b.gd_counts u).count
  gd_modes : ∀ u m, (a.gd_counts u).mode_counts m ≤ (b.gd_counts u).mode_counts m
  host_count : ∀ u, (a.host_counts u).count ≤ (b.host_counts u).count

theorem StLE.rfl (a : ScanState) : StLE a a :=
  ⟨fun _ h => h, fun _ h => h, fun _ h => h, fun _ h => h, fun _ h => h,
   fun _ => le_refl _, fun _ _ => le_refl _, fun _ => le_refl _,
   fun _ _ => le_refl _, fun _ => le_refl _, fun _ _ => le_refl _,
   fun _ => le_refl _⟩

theorem StLE.trans {a b c : ScanState} (h1 : StLE a b) (h2 : StLE b c) :
    StLE a c :=
  ⟨fun i h => h2.scanned i (h1.scanned i h),
   fun k h => h2.pairKeys k (h1.pairKeys k h),
   fun k h => h2.indKeys k (h1.indKeys k h),
   fun k h => h2.gdKeys k (h1.gdKeys k h),
   fun k h => h2.hostKeys k (h1.hostKeys k h),
   fun k => le_trans (h1.pair_count k) (h2.pair_count k),
   fun k m => le_trans (h1.pair_modes k m) (h2.pair_modes k m),
   fun u => le_trans (h1.ind_count u) (h2.ind_count u),
   fun u m => le_trans (h1.ind_modes u m) (h2.ind_modes u m),
   fun u => le_trans (h1.gd_count u) (h2.gd_count u),
   fun u m => le_trans (h1.gd_modes u m) (h2.gd_modes u m),
   fun u => le_trans (h1.host_count u) (h2.host_count u)⟩

theorem indStep_mono (d : String) (st : ScanState) (n : Nom) :
    StLE st (indStep d st n) := by
  obtain ⟨h1, h2, h3, h4, h5, h6, h7⟩ := indStep_others d st n
  refine ⟨?_, ?_, ?_, ?_, ?_, ?_, ?_, ?_, ?_, ?_, ?_, ?_⟩
  · intro i hi; rw [h1]; exact hi
  · intro k hk; rw [h2]; exact hk
  · intro k hk; exact (mem_insertKey_iff _ _ _).mpr (Or.inl hk)
  · intro k hk; rw [h4]; exact hk
  · intro k hk; rw [h6]; exact hk
  · intro k; rw [h3]
  · intro k m; rw [h3]
  · intro u; rw [indStep_count_delta]; exact Nat.le_add_right _ _
  · intro u m; rw [indStep_modes_delta]; exact Nat.le_add_right _ _
  · intro u; rw [h5]
  · intro u m; rw [h5]
  · intro u; rw [h7]

theorem pairStep_mono (d : String) (st : ScanState) (p : Nom × Nom) :
    StLE st (pairStep d st p) := by
  obtain ⟨h1, h2, h3, h4, h5, h6, h7⟩ := pairStep_others d st p
  refine ⟨?_, ?_, ?_, ?_, ?_, ?_, ?_, ?_, ?_, ?_, ?_, ?_⟩
  · intro i hi; rw [h1]; exact hi
  · intro k hk; exact (mem_insertKey_iff _ _ _).mpr (Or.inl hk)
  · intro k hk; rw [h2]; exact hk
  · intro k hk; rw [h4]; exact hk
  · intro k hk; rw [h6]; exact hk
  · intro k; rw [pairStep_count_delta]; exact Nat.le_add_right _ _
  · intro k m; rw [pairStep_modes_delta]; exact Nat.le_add_right _ _
  · intro u; rw [h3]
  · intro u m; rw [h3]
  · intro u; rw [h5]
  · intro u m; rw [h5]
  · intro u; rw [h7]

theorem gdStep_mono (d : String) (st : ScanState) (g : Nat × List String) :
    StLE st (gdStep d st g) := by
  obtain ⟨h1, h2, h3, h4, h5, h6, h7⟩ := gdStep_others d st g
  refine ⟨?_, ?_, ?_, ?_, ?_, ?_, ?_, ?_, ?_, ?_, ?_, ?_⟩
  · intro i hi; rw [h1]; exact hi
  · intro k hk; rw [h2]; exact hk
  · intro k hk; rw [h4]; exact hk
  · intro k hk; exact (mem_insertKey_iff _ _ _).mpr (Or.inl hk)
  · intro k hk; rw [h6]; exact hk
  · intro k; rw [h3]
  · intro k m; rw [h3]
  · intro u; rw [h5]
  · intro u m; rw [h5]
  · intro u; rw [gdStep_count_delta]; exact Nat.le_add_right _ _
  · intro u m; rw [gdStep_modes_delta]; exact Nat.le_add_right _ _
  · intro u; rw [h7]

theorem shallowHost_hostKeys_mono (st : ScanState) (s : SetRef) :
    ∀ k ∈ st.hostKeys, k ∈ (shallowHost st s).hostKeys := by
  intro k hk
  unfold shallowHost
  split
  · exact (mem_insertKey_iff _ _ _).mpr (Or.inl hk)
  · exact hk

theorem shallowHost_mono (st : ScanState) (s : SetRef) :
    StLE st (shallowHost st s) := by
  obtain ⟨h1, h2, h3, h4, h5, h6, h7⟩ := shallowHost_others st s
  refine ⟨?_, ?_, ?_, ?_, ?_, ?_, ?_, ?_, ?_, ?_, ?_, ?_⟩
  · intro i hi; rw [h1]; exact hi
  · intro k hk; rw [h2]; exact hk
  · intro k hk; rw [h4]; exact hk
  · intro k hk; rw [h6]; exact hk
  · exact shallowHost_hostKeys_mono st s
  · intro k; rw [h3]
  · intro k m; rw [h3]
  · intro u; rw [h5]
  · intro u m; rw [h5]
  · intro u; rw [h7]
  · intro u m; rw [h7]
  · intro u; rw [shallowHost_count_delta]; exact Nat.le_add_right _ _

theorem hostRefineMain_hostKeys_mono (st : ScanState) (h : Nat) (ms : List String) :
    ∀ k ∈ st.hostKeys, k ∈ (hostRefineMain st h ms).hostKeys := by
  intro k hk
  show k ∈ insertKey (osuAdjust st h).hostKeys h
  rw [(osuAdjust_others st h).2.2.2.2.2.2.2]
  exact (mem_insertKey_iff _ _ _).mpr (Or.inl hk)

theorem hostRefineMain_mono (st : ScanState) (h : Nat) (ms : List String) :
    StLE st (hostRefineMain st h ms) := by
  obtain ⟨h1, h2, h3, h4, h5, h6, h7⟩ := hostRefineMain_others st h ms
  refine ⟨?_, ?_, ?_, ?_, ?_, ?_, ?_, ?_, ?_, ?_, ?_, ?_⟩
  · intro i hi; rw [h1]; exact hi
  · intro k hk; rw [h2]; exact hk
  · intro k hk; rw [h4]; exact hk
  · intro k hk; rw [h6]; exact hk
  · exact hostRefineMain_hostKeys_mono st h ms
  · intro k; rw [h3]
  · intro k m; rw [h3]
  · intro u; rw [h5]
  · intro u m; rw [h5]
  · intro u; rw [h7]
  · intro u m; rw [h7]
  · intro u; rw [hostRefineMain_count]

theorem hostRefineRetry_mono (st : ScanState) (h : Nat) (ms : List String) :
    StLE st (hostRefineRetry st h ms) := by
  obtain ⟨h1, h2, h3, h4, h5, h6, h7⟩ := hostRefineRetry_others st h ms
  refine ⟨?_, ?_, ?_, ?_, ?_, ?_, ?_, ?_, ?_, ?_, ?_, ?_⟩
  · intro i hi; rw [h1]; exact hi
  · intro k hk; rw [h2]; exact hk
  · intro k hk; rw [h4]; exact hk
  · intro k hk; rw [h6]; exact hk
  · intro k hk
    show k ∈ insertKey (insertKey st.hostKeys h) h
    exact (mem_insertKey_iff _ _ _).mpr
      (Or.inl ((mem_insertKey_iff _ _ _).mpr (Or.inl hk)))
  · intro k; rw [h3]
  · intro k m; rw [h3]
  · intro u; rw [h5]
  · intro u m; rw [h5]
  · intro u; rw [h7]
  · intro u m; rw [h7]
  · intro u; rw [hostRefineRetry_count]

theorem insertScanned_mono (st : ScanState) (i : Nat) :
    StLE st { st with scanned_ids := insertKey st.scanned_ids i } :=
  ⟨fun _ h => (mem_insertKey_iff _ _ _).mpr (Or.inl h),
   fun _ h => h, fun _ h => h, fun _ h => h, fun _ h => h,
   fun _ => le_refl _, fun _ _ => le_refl _, fun _ => le_refl _,
   fun _ _ => le_refl _, fun _ => le_refl _, fun _ _ => le_refl _,
   fun _ => le_refl _⟩

theorem applyNoms_mono (d : String) (st : ScanState) (ns : List Nom) :
    StLE st (applyNoms d st ns) := by
  simp only [applyNoms]
  split
  · exact StLE.rfl st
  · split
    · exact StLE.trans
        (foldl_rel StLE (indStep d) StLE.rfl (fun _ _ _ => StLE.trans)
          (indStep_mono d) (uniqueNoms ns) st)
        (foldl_rel StLE (pairStep d) StLE.rfl (fun _ _ _ => StLE.trans)
          (pairStep_mono d) _ _)
    · exact foldl_rel StLE (indStep d) StLE.rfl (fun _ _ _ => StLE.trans)
        (indStep_mono d) (uniqueNoms ns) st

theorem gdFold_mono (d : String) (l : List (Nat × List String)) (st : ScanState) :
    StLE st (l.foldl (gdStep d) st) :=
  foldl_rel StLE (gdStep d) StLE.rfl (fun _ _ _ => StLE.trans) (gdStep_mono d) l st

theorem mainStep_mono (w : World) (acc : ScanState × List SetRef) (s : SetRef) :
    StLE acc.1 (mainStep w acc s).1 := by
  simp only [mainStep]
  cases hh : (process_nominator_set (w.fetch1 s.id)).host_id with
  | none => exact StLE.rfl _
  | some h =>
    dsimp only
    refine StLE.trans (insertScanned_mono acc.1 s.id) ?_
    refine StLE.trans
      (applyNoms_mono (dateOf s) _ ((process_nominator_set (w.fetch1 s.id)).noms)) ?_
    refine StLE.trans
      (gdFold_mono (dateOf s) ((process_nominator_set (w.fetch1 s.id)).gdm) _) ?_
    split
    · exact hostRefineMain_mono _ _ _
    · exact StLE.rfl _

theorem retryStep_mono (w : World) (st : ScanState) (s : SetRef) :
    StLE st (retryStep w st s) := by
  simp only [retryStep]
  cases hh : (process_nominator_set (w.fetch2 s.id)).host_id with
  | none => exact StLE.rfl _
  | some h =>
    dsimp only
    refine StLE.trans (insertScanned_mono st s.id) ?_
    refine StLE.trans
      (applyNoms_mono (dateOf s) _ ((process_nominator_set (w.fetch2 s.id)).noms)) ?_
    refine StLE.trans
      (gdFold_mono (dateOf s) ((process_nominator_set (w.fetch2 s.id)).gdm) _) ?_
    split
    · exact hostRefineRetry_mono _ _ _
    · exact StLE.rfl _

theorem scanBody_mono (w : World) (st0 : ScanState) :
    StLE st0 (scanBody w st0) := by
  simp only [scanBody]
  split
  · exact StLE.rfl st0
  · refine StLE.trans
      (foldl_rel StLE shallowHost StLE.rfl (fun _ _ _ => StLE.trans)
        shallowHost_mono (newSetsOf w st0) st0) ?_
    refine StLE.trans
      (foldl_rel (fun a b => StLE a.1 b.1) (mainStep w) (fun a => StLE.rfl a.1)
        (fun _ _ _ => StLE.trans) (mainStep_mono w) (newSetsOf w st0)
        ((newSetsOf w st0).foldl shallowHost st0, [])) ?_
    exact foldl_rel StLE (retryStep w) StLE.rfl (fun _ _ _ => StLE.trans)
      (retryStep_mono w) _ _

/-!
## Run-level inversion and the monotonicity claims
-/

theorem run_ok_inv {w : World} {st0 st1 : ScanState}
    (h : global_bn_duo_scan w st0 = .ok st1) :
    w.token_ok = true ∧ w.corpus.isEmpty = false ∧ keysEmpty st1 = false ∧
      st1 = scanBody w st0 := by
  unfold global_bn_duo_scan at h
  by_cases h1 : (!w.token_ok) = true
  · rw [if_pos h1] at h; cases h
  rw [if_neg h1] at h
  by_cases h2 : w.corpus.isEmpty = true
  · rw [if_pos h2] at h; cases h
  rw [if_neg h2] at h
  by_cases h3 : keysEmpty (scanBody w st0) = true
  · rw [if_pos h3] at h; cases h
  rw [if_neg h3] at h
  cases h
  refine ⟨?_, ?_, ?_, rfl⟩
  · cases hb : w.token_ok with
    | false => rw [hb] at h1; simp at h1
    | true => rfl
  · cases hb : w.corpus.isEmpty with
    | true => exact absurd hb h2
    | false => rfl
  · cases hb : keysEmpty (scanBody w st0) with
    | true => exact absurd hb h3
    | false => rfl

/-- C1 (corrected): every successful run of `global_bn_duo_scan` only grows
`scanned_ids`, every key set, every `count` field of the four counters, and
the per-mode sub-counts of the pair, individual and guest-difficulty
counters.  The host per-mode sub-counts are excluded: the main pass's `osu`
adjustment decrements them (see the counterexample). -/
theorem claim_c1_amended {w : World} {st0 st1 : ScanState}
    (h : global_bn_duo_scan w st0 = .ok st1) : StLE st0 st1 := by
  obtain ⟨-, -, -, h4⟩ := run_ok_inv h
  rw [h4]
  exact scanBody_mono w st0

def c1dd : DeepData :=
  { user_id := some 5
    beatmaps := [{ mode := some "taiko", owners := [5], user_id := some 5 }]
    current_nominations := []
    events_noms := [] }

/-- A cache state in which host 5 already carries one credit with the
default `osu` sub-count (as left by a run whose deep-fetch of a set by
host 5 failed). -/
def c1st0 : ScanState :=
  { emptyState with
    hostKeys := [5]
    host_counts := setFn emptyState.host_counts 5
      { count := 1, last_date := ""
        mode_counts := fun m => if m = "osu" then 1 else 0 } }

/-- A run in which set 9 appears with shallow host 6 but deep-fetches with
host 5 and a single taiko difficulty. -/
def c1w : World :=
  { token_ok := true
    corpus := [{ id := 9, user_id := some 6,
                 ranked_date := some "2021-01-02T00", last_updated := none }]
    fetch1 := fun i => if i = 9 then some c1dd else none
    fetch2 := fun _ => none }

/-- C1 (counterexample): the claim as stated - no stored count, including
each per-mode sub-count, is ever decremented - is false: in the run `c1w`
from cache `c1st0`, the `osu` adjustment of the main pass (lines 1120-1123)
decrements host 5's stored `osu` sub-count from 1 to 0. -/
theorem claim_c1_counterexample :
    (global_bn_duo_scan c1w c1st0).isOk = true ∧
    (c1st0.host_counts 5).mode_counts "osu" = 1 ∧
    ((extractSt (global_bn_duo_scan c1w c1st0)).host_counts 5).mode_counts "osu"
      = 0 := by
  refine ⟨rfl, rfl, rfl⟩

theorem claim_c1_witness : StLE c1st0 (extractSt (global_bn_duo_scan c1w c1st0)) :=
  @claim_c1_amended c1w c1st0 (extractSt (global_bn_duo_scan c1w c1st0)) (by rfl)

/-!
## Claim C9: error results
-/

theorem sub_nil_empty {α : Type} {l1 l2 : List α} (hsub : ∀ x ∈ l1, x ∈ l2)
    (h2 : l2 = []) : l1 = [] := by
  cases l1 with
  | nil => rfl
  | cons x xs =>
    exact absurd (h2 ▸ hsub x (List.mem_cons_self x xs)) (List.not_mem_nil x)

theorem keysEmpty_mono {a b : ScanState} (hle : StLE a b)
    (ha : keysEmpty a = false) : keysEmpty b = false := by
  by_contra hb
  have hb' : keysEmpty b = true := by
    revert hb; cases keysEmpty b <;> simp
  unfold keysEmpty at hb' ha
  simp only [Bool.and_eq_true] at hb'
  obtain ⟨⟨⟨hbp, hbi⟩, hbg⟩, hbh⟩ := hb'
  rw [List.isEmpty_iff] at hbp hbi hbg hbh
  rw [sub_nil_empty hle.pairKeys hbp, sub_nil_empty hle.indKeys hbi,
    sub_nil_empty hle.gdKeys hbg, sub_nil_empty hle.hostKeys hbh] at ha
  simp at ha

/-- The set whose shallow reference has no host id and whose deep-fetch
fails in both passes. -/
def c9w : World :=
  { token_ok := true
    corpus := [{ id := 3, user_id := none, ranked_date := none, last_updated := none }]
    fetch1 := fun _ => none
    fetch2 := fun _ => none }

/-- C9 (counterexample): the claim says an explicit error result is
returned exactly on authentication failure or an empty corpus search.
False: with a valid token and a non-empty corpus, a run that ends with all
four counter dicts empty returns the third error `No data found`
(line 1207). -/
theorem claim_c9_counterexample :
    global_bn_duo_scan c9w emptyState = .errorResult "No data found" ∧
    c9w.token_ok = true ∧ c9w.corpus ≠ [] := by
  refine ⟨rfl, rfl, by decide⟩

/-- C9 (corrected): failures local to one set never abort the run - for
every pattern of per-set deep-fetch outcomes, once authentication succeeds,
the corpus is non-empty and the loaded cache already holds any counter key,
the run returns a populated result.  The explicit errors are exactly
authentication failure, an empty corpus search, and the additional
`No data found` case when all four counters end empty. -/
theorem claim_c9_amended (w : World) (st0 : ScanState)
    (h1 : w.token_ok = true) (h2 : w.corpus ≠ []) (h3 : keysEmpty st0 = false) :
    (global_bn_duo_scan w st0).isOk = true := by
  unfold global_bn_duo_scan
  rw [if_neg (by simp [h1])]
  rw [if_neg (by simpa using h2)]
  rw [if_neg (by simp [keysEmpty_mono (scanBody_mono w st0) h3])]
  rfl

/-- A cache that already carries a host key, fed to the all-failures world
`c9w`: the run still succeeds. -/
def c9st0 : ScanState :=
  { emptyState with
    hostKeys := [5]
    host_counts := setFn emptyState.host_counts 5
      { count := 2, last_date := "", mode_counts := fun _ => 0 } }

theorem claim_c9_witness : (global_bn_duo_scan c9w c9st0).isOk = true :=
  claim_c9_amended c9w c9st0 rfl (by decide) rfl

/-!
## Claim C10: host credits come from the shallow pass
-/

theorem applyNoms_others (d : String) (st : ScanState) (ns : List Nom) :
    (applyNoms d st ns).scanned_ids = st.scanned_ids ∧
    (applyNoms d st ns).gdKeys = st.gdKeys ∧
    (applyNoms d st ns).gd_counts = st.gd_counts ∧
    (applyNoms d st ns).hostKeys = st.hostKeys ∧
    (applyNoms d st ns).host_counts = st.host_counts := by
  simp only [applyNoms]
  split
  · exact ⟨rfl, rfl, rfl, rfl, rfl⟩
  · split
    · refine ⟨?_, ?_, ?_, ?_, ?_⟩
      · rw [foldl_proj (pairStep d) (fun st => st.scanned_ids)
            (fun st p => (pairStep_others d st p).1),
          foldl_proj (indStep d) (fun st => st.scanned_ids)
            (fun st n => (indStep_others d st n).1)]
      · rw [foldl_proj (pairStep d) (fun st => st.gdKeys)
            (fun st p => (pairStep_others d st p).2.2.2.1),
          foldl_proj (indStep d) (fun st => st.gdKeys)
            (fun st n => (indStep_others d st n).2.2.2.1)]
      · rw [foldl_proj (pairStep d) (fun st => st.gd_counts)
            (fun st p => (pairStep_others d st p).2.2.2.2.1),
          foldl_proj (indStep d) (fun st => st.gd_counts)
            (fun st n => (indStep_others d st n).2.2.2.2.1)]
      · rw [foldl_proj (pairStep d) (fun st => st.hostKeys)
            (fun st p => (pairStep_others d st p).2.2.2.2.2.1),
          foldl_proj (indStep d) (fun st => st.hostKeys)
            (fun st n => (indStep_others d st n).2.2.2.2.2.1)]
      · rw [foldl_proj (pairStep d) (fun st => st.host_counts)
            (fun st p => (pairStep_others d st p).2.2.2.2.2.2),
          foldl_proj (indStep d) (fun st => st.host_counts)
            (fun st n => (indStep_others d st n).2.2.2.2.2.2)]
    · refine ⟨?_, ?_, ?_, ?_, ?_⟩
      · exact foldl_proj (indStep d) (fun st => st.scanned_ids)
          (fun st n => (indStep_others d st n).1) _ _
      · exact foldl_proj (indStep d) (fun st => st.gdKeys)
          (fun st n => (indStep_others d st n).2.2.2.1) _ _
      · exact foldl_proj (indStep d) (fun st => st.gd_counts)
          (fun st n => (indStep_others d st n).2.2.2.2.1) _ _
      · exact foldl_proj (indStep d) (fun st => st.hostKeys)
          (fun st n => (indStep_others d st n).2.2.2.2.2.1) _ _
      · exact foldl_proj (indStep d) (fun st => st.host_counts)
          (fun st n => (indStep_others d st n).2.2.2.2.2.2) _ _

theorem mainStep_host_count (w : World) (acc : ScanState × List SetRef)
    (s : SetRef) (u : Nat) :
    (((mainStep w acc s).1).host_counts u).count
      = ((acc.1).host_counts u).count := by
  simp only [mainStep]
  cases hh : (process_nominator_set (w.fetch1 s.id)).host_id with
  | none => rfl
  | some h =>
    dsimp only
    split
    · rw [hostRefineMain_count,
        foldl_proj (gdStep (dateOf s)) (fun st => st.host_counts)
          (fun st g => (gdStep_others _ st g).2.2.2.2.2.2),
        (applyNoms_others _ _ _).2.2.2.2]
    · rw [foldl_proj (gdStep (dateOf s)) (fun st => st.host_counts)
          (fun st g => (gdStep_others _ st g).2.2.2.2.2.2),
        (applyNoms_others _ _ _).2.2.2.2]

theorem retryStep_host_count (w : World) (st : ScanState) (s : SetRef) (u : Nat) :
    ((retryStep w st s).host_counts u).count = (st.host_counts u).count := by
  simp only [retryStep]
  cases hh : (process_nominator_set (w.fetch2 s.id)).host_id with
  | none => rfl
  | some h =>
    dsimp only
    split
    · rw [hostRefineRetry_count,
        foldl_proj (gdStep (dateOf s)) (fun st => st.host_counts)
          (fun st g => (gdStep_others _ st g).2.2.2.2.2.2),
        (applyNoms_others _ _ _).2.2.2.2]
    · rw [foldl_proj (gdStep (dateOf s)) (fun st => st.host_counts)
          (fun st g => (gdStep_others _ st g).2.2.2.2.2.2),
        (applyNoms_others _ _ _).2.2.2.2]

theorem shallowFold_count (l : List SetRef) (st : ScanState) (u : Nat) :
    ((l.foldl shallowHost st).host_counts u).count
      = (st.host_counts u).count
        + l.countP (fun s => decide (s.user_id = some u ∧ u ≠ 0)) := by
  induction l generalizing st with
  | nil => simp
  | cons s rest ih =>
    rw [List.foldl_cons, ih, shallowHost_count_delta, List.countP_cons]
    simp only [decide_eq_true_eq]
    by_cases hp : s.user_id = some u ∧ u ≠ 0
    · simp only [if_pos hp]
      omega
    · simp only [if_neg hp]
      omega

/-- C10 (confirmed): for every successful run, each host's `count` changes
by exactly the number of new corpus sets that carry that host's (truthy)
shallow `user_id` - the credit is taken from search data in the shallow
pass before any deep fetch, the deep-fetch merge never touches the host
`count`, and the formula is independent of both fetch oracles, so the
credit persists when the set's deep-fetch permanently fails. -/
theorem claim_c10_shallow_host {w : World} {st0 st1 : ScanState}
    (h : global_bn_duo_scan w st0 = .ok st1) (hid : Nat) :
    (st1.host_counts hid).count
      = (st0.host_counts hid).count
        + (newSetsOf w st0).countP
            (fun s => decide (s.user_id = some hid ∧ hid ≠ 0)) := by
  obtain ⟨-, -, -, h4⟩ := run_ok_inv h
  rw [h4]
  simp only [scanBody]
  split
  · next hns =>
    rw [List.isEmpty_iff.mp hns]
    simp
  · rw [foldl_proj (retryStep w) (fun st => (st.host_counts hid).count)
        (fun st s => retryStep_host_count w st s hid),
      foldl_proj (mainStep w) (fun a => ((a.1).host_counts hid).count)
        (fun a s => mainStep_host_count w a s hid)]
    exact shallowFold_count _ _ _

/-- Two sets by host 5; the deep-fetch of set 2 fails permanently. -/
def c10w : World :=
  { token_ok := true
    corpus := [{ id := 1, user_id := some 5,
                 ranked_date := some "2020-01-01T0", last_updated := none },
               { id := 2, user_id := some 5,
                 ranked_date := none, last_updated := some "2020-02-02T0" }]
    fetch1 := fun i =>
      if i = 1 then
        some { user_id := some 5, beatmaps := [], current_nominations := [],
               events_noms := [] }
      else none
    fetch2 := fun _ => none }

theorem claim_c10_witness :
    ((extractSt (global_bn_duo_scan c10w emptyState)).host_counts 5).count
      = (emptyState.host_counts 5).count
        + (newSetsOf c10w emptyState).countP
            (fun s => decide (s.user_id = some 5 ∧ 5 ≠ 0)) :=
  @claim_c10_shallow_host c10w emptyState
    (extractSt (global_bn_duo_scan c10w emptyState)) (by rfl) 5

/-!
## Claim C2: idempotence of a second run
-/

/-- One set by host 5 whose deep-fetch fails in both passes of both runs. -/
def c2w : World :=
  { token_ok := true
    corpus := [{ id := 1, user_id := some 5,
                 ranked_date := some "2020-01-01T0", last_updated := none }]
    fetch1 := fun _ => none
    fetch2 := fun _ => none }

def c2st1 : ScanState := extractSt (global_bn_duo_scan c2w emptyState)

/-- C2 (counterexample): with identical upstream data in both runs, the
second run is not a no-op when the first run left a set outside
`scanned_ids` (a permanently failed deep-fetch): the set counts as new
again and its host receives a second shallow credit, so host 5's count
grows from 1 to 2. -/
theorem claim_c2_counterexample :
    global_bn_duo_scan c2w emptyState = .ok c2st1 ∧
    (c2st1.host_counts 5).count = 1 ∧
    (global_bn_duo_scan c2w c2st1).isOk = true ∧
    ((extractSt (global_bn_duo_scan c2w c2st1)).host_counts 5).count = 2 := by
  refine ⟨rfl, by decide, rfl, by decide⟩

/-- C2 (corrected): when the first run scanned every corpus set (no
permanently failed deep-fetch left a corpus id outside `scanned_ids`),
a second run over the same corpus skips every set and returns the state
unchanged - `scanned_ids` and all four counters included. -/
theorem claim_c2_amended {w : World} {st0 st1 : ScanState}
    (h1 : global_bn_duo_scan w st0 = .ok st1)
    (h2 : ∀ s ∈ w.corpus, s.id ∈ st1.scanned_ids) :
    global_bn_duo_scan w st1 = .ok st1 := by
  obtain ⟨ht, hc, hk, -⟩ := run_ok_inv h1
  have hns : newSetsOf w st1 = [] := by
    unfold newSetsOf
    rw [List.filter_eq_nil_iff]
    intro s hs
    simp [h2 s hs]
  have hbody : scanBody w st1 = st1 := by
    simp only [scanBody, hns, List.isEmpty_nil, if_true]
  unfold global_bn_duo_scan
  rw [if_neg (by simp [ht]), if_neg (by simp [hc]), hbody, hk]
  simp

/-- One set by host 5 whose deep-fetch succeeds. -/
def c2gw : World :=
  { token_ok := true
    corpus := [{ id := 1, user_id := some 5,
                 ranked_date := some "2020-01-01T0", last_updated := none }]
    fetch1 := fun _ =>
      some { user_id := some 5, beatmaps := [], current_nominations := [],
             events_noms := [] }
    fetch2 := fun _ => none }

def c2gst1 : ScanState := extractSt (global_bn_duo_scan c2gw emptyState)

theorem claim_c2_witness : global_bn_duo_scan c2gw c2gst1 = .ok c2gst1 :=
  @claim_c2_amended c2gw emptyState c2gst1 (by rfl) (by decide)

/-!
## Claim C3: degraded deep-fetch accounting
-/

theorem mainStep_failed_of_none {w : World} {acc : ScanState × List SetRef}
    {s : SetRef} (hh : deepHost (w.fetch1 s.id) = none) :
    mainStep w acc s = (acc.1, acc.2 ++ [s]) := by
  simp only [mainStep]
  rw [pns_host_id, hh]

theorem mainStep_scanned_of_some {w : World} {acc : ScanState × List SetRef}
    {s : SetRef} {h : Nat} (hh : deepHost (w.fetch1 s.id) = some h) :
    ((mainStep w acc s).1).scanned_ids = insertKey acc.1.scanned_ids s.id ∧
    (mainStep w acc s).2 = acc.2 := by
  simp only [mainStep]
  rw [pns_host_id, hh]
  dsimp only
  constructor
  · split
    · rw [(hostRefineMain_others _ _ _).1,
        foldl_proj (gdStep (dateOf s)) (fun st => st.scanned_ids)
          (fun st g => (gdStep_others _ st g).1),
        (applyNoms_others _ _ _).1]
    · rw [foldl_proj (gdStep (dateOf s)) (fun st => st.scanned_ids)
          (fun st g => (gdStep_others _ st g).1),
        (applyNoms_others _ _ _).1]
  · rfl

theorem mainFold_char (w : World) (l : List SetRef)
    (acc : ScanState × List SetRef) :
    ((l.foldl (mainStep w) acc).2
        = acc.2 ++ l.filter (fun s => (deepHost (w.fetch1 s.id)).isNone)) ∧
    ∀ i, (i ∈ ((l.foldl (mainStep w) acc).1).scanned_ids ↔
        i ∈ acc.1.scanned_ids ∨
          ∃ s ∈ l, s.id = i ∧ (deepHost (w.fetch1 s.id)).isSome = true) := by
  induction l generalizing acc with
  | nil => simp
  | cons s rest ih =>
    rw [List.foldl_cons]
    obtain ⟨ih1, ih2⟩ := ih (mainStep w acc s)
    cases hh : deepHost (w.fetch1 s.id) with
    | none =>
      constructor
      · rw [ih1, mainStep_failed_of_none hh]
        simp [List.filter_cons, hh]
      · intro i
        rw [ih2 i, mainStep_failed_of_none hh]
        simp only [List.mem_cons]
        constructor
        · rintro (hmem | ⟨t, ht, hid, h1⟩)
          · exact Or.inl hmem
          · exact Or.inr ⟨t, Or.inr ht, hid, h1⟩
        · rintro (hmem | ⟨t, (rfl | ht), hid, h1⟩)
          · exact Or.inl hmem
          · rw [hh] at h1; cases h1
          · exact Or.inr ⟨t, ht, hid, h1⟩
    | some h =>
      obtain ⟨hs1, hs2⟩ := mainStep_scanned_of_some hh
      constructor
      · rw [ih1, hs2]
        simp [List.filter_cons, hh]
      · intro i
        rw [ih2 i, hs1, mem_insertKey_iff]
        simp only [List.mem_cons]
        constructor
        · rintro ((hmem | rfl) | ⟨t, ht, hid, h1⟩)
          · exact Or.inl hmem
          · exact Or.inr ⟨s, Or.inl rfl, rfl, by rw [hh]; rfl⟩
          · exact Or.inr ⟨t, Or.inr ht, hid, h1⟩
        · rintro (hmem | ⟨t, (rfl | ht), hid, h1⟩)
          · exact Or.inl (Or.inl hmem)
          · exact Or.inl (Or.inr hid.symm)
          · exact Or.inr ⟨t, ht, hid, h1⟩

theorem retryStep_of_none {w : World} {st : ScanState} {s : SetRef}
    (hh : deepHost (w.fetch2 s.id) = none) : retryStep w st s = st := by
  simp only [retryStep]
  rw [pns_host_id, hh]

theorem retryStep_scanned_of_some {w : World} {st : ScanState} {s : SetRef}
    {h : Nat} (hh : deepHost (w.fetch2 s.id) = some h) :
    (retryStep w st s).scanned_ids = insertKey st.scanned_ids s.id := by
  simp only [retryStep]
  rw [pns_host_id, hh]
  dsimp only
  split
  · rw [(hostRefineRetry_others _ _ _).1,
      foldl_proj (gdStep (dateOf s)) (fun st => st.scanned_ids)
        (fun st g => (gdStep_others _ st g).1),
      (applyNoms_others _ _ _).1]
  · rw [foldl_proj (gdStep (dateOf s)) (fun st => st.scanned_ids)
        (fun st g => (gdStep_others _ st g).1),
      (applyNoms_others _ _ _).1]

theorem retryFold_mem (w : World) (l : List SetRef) (st : ScanState) (i : Nat) :
    i ∈ (l.foldl (retryStep w) st).scanned_ids ↔
      i ∈ st.scanned_ids ∨
        ∃ s ∈ l, s.id = i ∧ (deepHost (w.fetch2 s.id)).isSome = true := by
  induction l generalizing st with
  | nil => simp
  | cons s rest ih =>
    rw [List.foldl_cons, ih]
    cases hh : deepHost (w.fetch2 s.id) with
    | none =>
      rw [retryStep_of_none hh]
      simp only [List.mem_cons]
      constructor
      · rintro (hmem | ⟨t, ht, hid, h1⟩)
        · exact Or.inl hmem
        · exact Or.inr ⟨t, Or.inr ht, hid, h1⟩
      · rintro (hmem | ⟨t, (rfl | ht), hid, h1⟩)
        · exact Or.inl hmem
        · rw [hh] at h1; cases h1
        · exact Or.inr ⟨t, ht, hid, h1⟩
    | some h =>
      rw [retryStep_scanned_of_some hh, mem_insertKey_iff]
      simp only [List.mem_cons]
      constructor
      · rintro ((hmem | rfl) | ⟨t, ht, hid, h1⟩)
        · exact Or.inl hmem
        · exact Or.inr ⟨s, Or.inl rfl, rfl, by rw [hh]; rfl⟩
        · exact Or.inr ⟨t, Or.inr ht, hid, h1⟩
      · rintro (hmem | ⟨t, (rfl | ht), hid, h1⟩)
        · exact Or.inl (Or.inl hmem)
        · exact Or.inl (Or.inr hid.symm)
        · exact Or.inr ⟨t, ht, hid, h1⟩

/-- C3 (confirmed): for a run over a corpus with unique set ids, a set that
was not already cached ends up in `scanned_ids` exactly when its deep-fetch
produced a host id in the main pass or in the retry pass; in particular a
set whose `process_nominator_set` yields a `None` host id both times is
absent from `scanned_ids` after the run, while every set whose deep-fetch
succeeded is present (its contributions are merged per the C5/C6/C7/C10
theorems). -/
theorem claim_c3_degraded {w : World} {st0 st1 : ScanState}
    (hids : (w.corpus.map SetRef.id).Nodup)
    (h : global_bn_duo_scan w st0 = .ok st1)
    (s : SetRef) (hs : s ∈ w.corpus) (hnew : s.id ∉ st0.scanned_ids) :
    s.id ∈ st1.scanned_ids ↔
      (deepHost (w.fetch1 s.id)).isSome = true ∨
        (deepHost (w.fetch2 s.id)).isSome = true := by
  obtain ⟨-, -, -, h4⟩ := run_ok_inv h
  rw [h4]
  have hsns : s ∈ newSetsOf w st0 := by
    unfold newSetsOf
    rw [List.mem_filter]
    exact ⟨hs, by simp [hnew]⟩
  have hinj : ∀ t ∈ w.corpus, t.id = s.id → t = s := fun t ht hid =>
    List.inj_on_of_nodup_map hids ht hs hid
  simp only [scanBody]
  split
  · next hns =>
    exfalso
    rw [List.isEmpty_iff.mp hns] at hsns
    cases hsns
  · have hshal : ((newSetsOf w st0).foldl shallowHost st0).scanned_ids
        = st0.scanned_ids :=
      foldl_proj shallowHost (fun st => st.scanned_ids)
        (fun st s => (shallowHost_others st s).1) (newSetsOf w st0) st0
    obtain ⟨hfail, hscan⟩ :=
      mainFold_char w (newSetsOf w st0)
        ((newSetsOf w st0).foldl shallowHost st0, [])
    rw [retryFold_mem, hfail, hscan s.id, hshal]
    simp only [List.nil_append]
    constructor
    · rintro ((hmem | ⟨t, ht, hid, h1⟩) | ⟨t, ht, hid, h2⟩)
      · exact absurd hmem hnew
      · have := hinj t (List.mem_of_mem_filter ht) hid
        subst this
        exact Or.inl h1
      · have := hinj t (List.mem_of_mem_filter (List.mem_of_mem_filter ht)) hid
        subst this
        exact Or.inr h2
    · rintro (h1 | h2)
      · exact Or.inl (Or.inr ⟨s, hsns, rfl, h1⟩)
      · by_cases hf1 : (deepHost (w.fetch1 s.id)).isSome = true
        · exact Or.inl (Or.inr ⟨s, hsns, rfl, hf1⟩)
        · refine Or.inr ⟨s, ?_, rfl, h2⟩
          rw [List.mem_filter]
          refine ⟨hsns, ?_⟩
          cases hdh : deepHost (w.fetch1 s.id) with
          | none => rfl
          | some h' => rw [hdh] at hf1; exact absurd rfl hf1

theorem claim_c3_witness :
    2 ∈ (extractSt (global_bn_duo_scan c10w emptyState)).scanned_ids ↔
      (deepHost (c10w.fetch1 2)).isSome = true ∨
        (deepHost (c10w.fetch2 2)).isSome = true :=
  @claim_c3_degraded c10w emptyState
    (extractSt (global_bn_duo_scan c10w emptyState)) (by decide) (by rfl)
    { id := 2, user_id := some 5, ranked_date := none,
      last_updated := some "2020-02-02T0" }
    (by decide) (by decide)

/-!
## Claim C5: one guest-difficulty credit per set
-/

theorem keys_addGdMode (g : List (Nat × List String)) (u : Nat) (m : String) :
    (addGdMode g u m).map Prod.fst = insertKey (g.map Prod.fst) u := by
  unfold addGdMode insertKey
  by_cases hc : g.any (fun e => e.1 == u) = true
  · rw [if_pos hc]
    have hm : u ∈ g.map Prod.fst := by
      obtain ⟨e, he, heq⟩ := List.any_eq_true.mp hc
      exact List.mem_map.mpr ⟨e, he, beq_iff_eq.mp heq⟩
    rw [if_pos hm, List.map_map]
    refine List.map_congr_left ?_
    intro e _
    by_cases he : e.1 = u <;> simp [he]
  · rw [if_neg hc]
    have hm : u ∉ g.map Prod.fst := by
      intro hmem
      obtain ⟨e, he, heq⟩ := List.mem_map.mp hmem
      exact hc (List.any_eq_true.mpr ⟨e, he, beq_iff_eq.mpr heq⟩)
    rw [if_neg hm, List.map_append]
    rfl

/-- A difficulty `b` credits user `u` as a guest contributor, per the
branching of lines 374-391. -/
def gdHit (h : Nat) (b : Beatmap) (u : Nat) : Prop :=
  (b.owners ≠ [] ∧ u ∈ b.owners ∧ u ≠ h) ∨
    (b.owners = [] ∧ b.user_id = some u ∧ u ≠ h ∧ u ≠ 0)

theorem ownerFold_mem (h : Nat) (mode : String) (owners : List Nat)
    (acc : ExtractAcc) (u : Nat) :
    u ∈ ((owners.foldl (ownerStep h mode) acc).gdm).map Prod.fst ↔
      u ∈ acc.gdm.map Prod.fst ∨ (u ∈ owners ∧ u ≠ h) := by
  induction owners generalizing acc with
  | nil => simp
  | cons o os ih =>
    rw [List.foldl_cons, ih]
    by_cases ho : o = h
    · have hstep : (ownerStep h mode acc o).gdm = acc.gdm := by
        simp [ownerStep, ho]
      rw [hstep]
      constructor
      · rintro (hmem | ⟨hos, hne⟩)
        · exact Or.inl hmem
        · exact Or.inr ⟨List.mem_cons_of_mem o hos, hne⟩
      · rintro (hmem | ⟨ho2, hne⟩)
        · exact Or.inl hmem
        · rcases List.mem_cons.mp ho2 with heq | hos
          · exact absurd (heq.trans ho) hne
          · exact Or.inr ⟨hos, hne⟩
    · have hstep : (ownerStep h mode acc o).gdm = addGdMode acc.gdm o mode := by
        simp [ownerStep, ho]
      rw [hstep, keys_addGdMode, mem_insertKey_iff]
      constructor
      · rintro ((hmem | heq) | ⟨hos, hne⟩)
        · exact Or.inl hmem
        · refine Or.inr ⟨?_, ?_⟩
          · rw [heq]; exact List.mem_cons_self o os
          · rw [heq]; exact ho
        · exact Or.inr ⟨List.mem_cons_of_mem o hos, hne⟩
      · rintro (hmem | ⟨hcons, hne⟩)
        · exact Or.inl (Or.inl hmem)
        · rcases List.mem_cons.mp hcons with heq | hos
          · exact Or.inl (Or.inr heq)
          · exact Or.inr ⟨hos, hne⟩

theorem ownerFold_nodup (h : Nat) (mode : String) (owners : List Nat)
    {acc : ExtractAcc} (hnd : (acc.gdm.map Prod.fst).Nodup) :
    (((owners.foldl (ownerStep h mode) acc).gdm).map Prod.fst).Nodup := by
  induction owners generalizing acc with
  | nil => exact hnd
  | cons o os ih =>
    rw [List.foldl_cons]
    refine ih ?_
    by_cases ho : o = h
    · have hstep : (ownerStep h mode acc o).gdm = acc.gdm := by
        simp [ownerStep, ho]
      rw [hstep]; exact hnd
    · have hstep : (ownerStep h mode acc o).gdm = addGdMode acc.gdm o mode := by
        simp [ownerStep, ho]
      rw [hstep, keys_addGdMode]
      exact nodup_insertKey hnd o

theorem extractStep_gdm_mem (h : Nat) (acc : ExtractAcc) (b : Beatmap) (u : Nat) :
    u ∈ ((extractStep h acc b).gdm).map Prod.fst ↔
      u ∈ acc.gdm.map Prod.fst ∨ gdHit h b u := by
  simp only [extractStep]
  split
  · next how =>
    rw [ownerFold_mem]
    unfold gdHit
    constructor
    · rintro (hmem | ⟨hos, hne⟩)
      · exact Or.inl hmem
      · exact Or.inr (Or.inl ⟨how, hos, hne⟩)
    · rintro (hmem | (⟨-, hos, hne⟩ | ⟨hnil, -⟩))
      · exact Or.inl hmem
      · exact Or.inr ⟨hos, hne⟩
      · exact absurd hnil how
  · next how =>
    have hnil : b.owners = [] := not_not.mp how
    unfold gdHit
    cases hc : b.user_id with
    | none =>
      dsimp only
      constructor
      · exact fun hmem => Or.inl hmem
      · rintro (hmem | (⟨how2, -⟩ | ⟨-, hcu, -⟩))
        · exact hmem
        · exact absurd hnil how2
        · cases hcu
    | some c =>
      dsimp only
      by_cases hch : c = h
      · rw [if_pos hch]
        constructor
        · exact fun hmem => Or.inl hmem
        · rintro (hmem | (⟨how2, -⟩ | ⟨-, hcu, hne, -⟩))
          · exact hmem
          · exact absurd hnil how2
          · exact absurd ((Option.some.inj hcu).symm.trans hch) hne
      · rw [if_neg hch]
        by_cases hc0 : c ≠ 0
        · rw [if_pos hc0, keys_addGdMode, mem_insertKey_iff]
          constructor
          · rintro (hmem | heq)
            · exact Or.inl hmem
            · refine Or.inr (Or.inr ⟨hnil, ?_, ?_, ?_⟩)
              · rw [heq]
              · rw [heq]; exact hch
              · rw [heq]; exact hc0
          · rintro (hmem | (⟨how2, -⟩ | ⟨-, hcu, -, -⟩))
            · exact Or.inl hmem
            · exact absurd hnil how2
            · exact Or.inr (Option.some.inj hcu).symm
        · rw [if_neg hc0]
          have hc0' : c = 0 := not_not.mp hc0
          constructor
          · exact fun hmem => Or.inl hmem
          · rintro (hmem | (⟨how2, -⟩ | ⟨-, hcu, -, hne0⟩))
            · exact hmem
            · exact absurd hnil how2
            · exact absurd ((Option.some.inj hcu).symm.trans hc0') hne0

theorem extractStep_gdm_nodup (h : Nat) {acc : ExtractAcc} (b : Beatmap)
    (hnd : (acc.gdm.map Prod.fst).Nodup) :
    (((extractStep h acc b).gdm).map Prod.fst).Nodup := by
  simp only [extractStep]
  split
  · exact ownerFold_nodup h _ _ hnd
  · cases hc : b.user_id with
    | none => exact hnd
    | some c =>
      dsimp only
      by_cases hch : c = h
      · rw [if_pos hch]; exact hnd
      · rw [if_neg hch]
        by_cases hc0 : c ≠ 0
        · rw [if_pos hc0, keys_addGdMode]
          exact nodup_insertKey hnd c
        · rw [if_neg hc0]; exact hnd

theorem extractFold_mem (h : Nat) (bs : List Beatmap) (acc : ExtractAcc)
    (u : Nat) :
    u ∈ ((bs.foldl (extractStep h) acc).gdm).map Prod.fst ↔
      u ∈ acc.gdm.map Prod.fst ∨ ∃ b ∈ bs, gdHit h b u := by
  induction bs generalizing acc with
  | nil => simp
  | cons b rest ih =>
    rw [List.foldl_cons, ih, extractStep_gdm_mem]
    simp only [List.mem_cons]
    constructor
    · rintro ((hmem | hhit) | ⟨t, ht, hth⟩)
      · exact Or.inl hmem
      · exact Or.inr ⟨b, Or.inl rfl, hhit⟩
      · exact Or.inr ⟨t, Or.inr ht, hth⟩
    · rintro (hmem | ⟨t, (heq | ht), hth⟩)
      · exact Or.inl (Or.inl hmem)
      · exact Or.inl (Or.inr (heq ▸ hth))
      · exact Or.inr ⟨t, ht, hth⟩

theorem extractFold_nodup (h : Nat) (bs : List Beatmap) {acc : ExtractAcc}
    (hnd : (acc.gdm.map Prod.fst).Nodup) :
    (((bs.foldl (extractStep h) acc).gdm).map Prod.fst).Nodup := by
  induction bs generalizing acc with
  | nil => exact hnd
  | cons b rest ih =>
    rw [List.foldl_cons]
    exact ih (extractStep_gdm_nodup h b hnd)

theorem countP_eq_indicator {α : Type} (f : α → Nat) {l : List α}
    (hnd : (l.map f).Nodup) (b : Nat) :
    l.countP (fun x => decide (f x = b)) = if b ∈ l.map f then 1 else 0 := by
  induction l with
  | nil => simp
  | cons x xs ih =>
    simp only [List.map_cons, List.nodup_cons] at hnd
    obtain ⟨hx, hxs⟩ := hnd
    rw [List.countP_cons, ih hxs]
    by_cases hfb : f x = b
    · subst hfb
      have h1 : f x ∈ List.map f (x :: xs) := by
        rw [List.map_cons]
        exact List.mem_cons_self _ _
      simp [hx, h1]
    · have hmm : (b ∈ List.map f (x :: xs)) ↔ b ∈ List.map f xs := by
        rw [List.map_cons, List.mem_cons]
        constructor
        · rintro (heq | hmem)
          · exact absurd heq.symm hfb
          · exact hmem
        · exact fun hmem => Or.inr hmem
      rw [if_congr hmm rfl rfl]
      simp [hfb]

theorem gdFold_count_delta (d : String) (l : List (Nat × List String))
    (st : ScanState) (u : Nat) :
    ((l.foldl (gdStep d) st).gd_counts u).count
      = (st.gd_counts u).count + l.countP (fun g => decide (g.1 = u)) := by
  induction l generalizing st with
  | nil => simp
  | cons g rest ih =>
    rw [List.foldl_cons, ih, gdStep_count_delta, List.countP_cons]
    simp only [decide_eq_true_eq]
    by_cases hp : u = g.1
    · simp only [if_pos hp, if_pos hp.symm]
      omega
    · simp only [if_neg hp, if_neg (fun hh => hp (Eq.symm hh))]
      omega

/-- The claim's notion of a guest-difficulty contributor on a set hosted by
`h`: a user other than the host credited by some difficulty, via its
owners list when present, else as its sole (truthy) creator. -/
def isGdContributor (h : Nat) (bs : List Beatmap) (u : Nat) : Prop :=
  u ≠ h ∧ ∃ b ∈ bs,
    (b.owners ≠ [] ∧ u ∈ b.owners) ∨
      (b.owners = [] ∧ b.user_id = some u ∧ u ≠ 0)

instance instDecidableIsGdContributor (h : Nat) (bs : List Beatmap) (u : Nat) :
    Decidable (isGdContributor h bs u) := by
  unfold isGdContributor
  infer_instance

theorem isGdContributor_iff (h : Nat) (bs : List Beatmap) (u : Nat) :
    isGdContributor h bs u ↔ ∃ b ∈ bs, gdHit h b u := by
  unfold isGdContributor gdHit
  constructor
  · rintro ⟨hne, b, hb, (⟨ho, hm⟩ | ⟨ho, hcu, h0⟩)⟩
    · exact ⟨b, hb, Or.inl ⟨ho, hm, hne⟩⟩
    · exact ⟨b, hb, Or.inr ⟨ho, hcu, hne, h0⟩⟩
  · rintro ⟨b, hb, (⟨ho, hm, hne⟩ | ⟨ho, hcu, hne, h0⟩)⟩
    · exact ⟨hne, b, hb, Or.inl ⟨ho, hm⟩⟩
    · exact ⟨hne, b, hb, Or.inr ⟨ho, hcu, h0⟩⟩

theorem pns_gdm_of_host {d : DeepData} {h : Nat} (hh : d.user_id = some h)
    (h0 : h ≠ 0) :
    (process_nominator_set (some d)).gdm
      = (d.beatmaps.foldl (extractStep h) ⟨[], [], []⟩).gdm := by
  simp only [process_nominator_set]
  rw [hh]
  have ht : truthyNat (some h) = true := by simp [truthyNat, h0]
  rw [if_pos ht]
  simp [Option.getD_some]

/-- C5 (confirmed): in the per-set merge of the global scan, each
guest-difficulty contributor of the fetched set - a user other than the
(truthy) host credited by a difficulty's owners list when present, else as
its sole truthy creator - receives exactly one `gd_counts` increment from
that set, regardless of how many difficulties they authored; every other
user's count is unchanged. -/
theorem claim_c5_gd_dedup {w : World} (st : ScanState) (fs : List SetRef)
    (s : SetRef) (d : DeepData) (h : Nat)
    (hf : w.fetch1 s.id = some d) (hh : d.user_id = some h) (h0 : h ≠ 0)
    (u : Nat) :
    (((mainStep w (st, fs) s).1).gd_counts u).count
      = (st.gd_counts u).count
        + (if isGdContributor h d.beatmaps u then 1 else 0) := by
  have hhost : (process_nominator_set (w.fetch1 s.id)).host_id = some h := by
    rw [pns_host_id, hf]
    exact hh
  simp only [mainStep]
  rw [hhost]
  dsimp only
  have hcnt :
      ((List.foldl (gdStep (dateOf s))
          (applyNoms (dateOf s)
            { st with scanned_ids := insertKey st.scanned_ids s.id }
            (process_nominator_set (w.fetch1 s.id)).noms)
          (process_nominator_set (w.fetch1 s.id)).gdm).gd_counts u).count
        = (st.gd_counts u).count
          + (if isGdContributor h d.beatmaps u then 1 else 0) := by
    rw [gdFold_count_delta, (applyNoms_others _ _ _).2.2.1]
    dsimp only
    congr 1
    rw [hf, pns_gdm_of_host hh h0]
    rw [countP_eq_indicator Prod.fst (extractFold_nodup h d.beatmaps (by simp)) u]
    refine if_congr ?_ rfl rfl
    rw [extractFold_mem, isGdContributor_iff]
    simp
  split
  · rw [(hostRefineMain_others _ _ _).2.2.2.2.2.2]
    exact hcnt
  · exact hcnt

def c5dd : DeepData :=
  { user_id := some 5
    beatmaps := [{ mode := some "osu", owners := [], user_id := some 7 },
                 { mode := some "taiko", owners := [], user_id := some 7 }]
    current_nominations := []
    events_noms := [] }

def c5w : World :=
  { token_ok := true
    corpus := [{ id := 11, user_id := some 5,
                 ranked_date := some "2020-03-03T0", last_updated := none }]
    fetch1 := fun _ => some c5dd
    fetch2 := fun _ => none }

theorem claim_c5_witness :
    (((mainStep c5w (emptyState, [])
          { id := 11, user_id := some 5,
            ranked_date := some "2020-03-03T0", last_updated := none }).1).gd_counts 7).count
      = (emptyState.gd_counts 7).count
        + (if isGdContributor 5 c5dd.beatmaps 7 then 1 else 0) :=
  @claim_c5_gd_dedup c5w emptyState []
    { id := 11, user_id := some 5,
      ranked_date := some "2020-03-03T0", last_updated := none }
    c5dd 5 (by rfl) (by rfl) (by decide) 7

/-!
## Claim C6: one duo credit per unordered pair per set
-/

theorem countP_ext {α : Type} (p q : α → Bool) :
    ∀ l : List α, (∀ x ∈ l, p x = q x) → l.countP p = l.countP q := by
  intro l
  induction l with
  | nil => intro _; rfl
  | cons x xs ih =>
    intro hpq
    rw [List.countP_cons, List.countP_cons,
      hpq x (List.mem_cons_self x xs),
      ih (fun y hy => hpq y (List.mem_cons_of_mem x hy))]

theorem keys_insertNom (acc : List Nom) (n : Nom) :
    (insertNom acc n).map Nom.nominator_id
      = insertKey (acc.map Nom.nominator_id) n.nominator_id := by
  unfold insertNom insertKey
  by_cases hc : acc.any (fun m => m.nominator_id == n.nominator_id) = true
  · rw [if_pos hc]
    have hm : n.nominator_id ∈ acc.map Nom.nominator_id := by
      obtain ⟨e, he, heq⟩ := List.any_eq_true.mp hc
      exact List.mem_map.mpr ⟨e, he, beq_iff_eq.mp heq⟩
    rw [if_pos hm, List.map_map]
    refine List.map_congr_left ?_
    intro e _
    by_cases he : e.nominator_id = n.nominator_id <;> simp [he]
  · rw [if_neg hc]
    have hm : n.nominator_id ∉ acc.map Nom.nominator_id := by
      intro hmem
      obtain ⟨e, he, heq⟩ := List.mem_map.mp hmem
      exact hc (List.any_eq_true.mpr ⟨e, he, beq_iff_eq.mpr heq⟩)
    rw [if_neg hm, List.map_append]
    rfl

theorem keys_uniqueNoms_go (ns : List Nom) :
    ∀ acc : List Nom,
      (ns.foldl insertNom acc).map Nom.nominator_id
        = (ns.map Nom.nominator_id).foldl insertKey (acc.map Nom.nominator_id) := by
  induction ns with
  | nil => intro acc; rfl
  | cons n rest ih =>
    intro acc
    rw [List.foldl_cons, List.map_cons, List.foldl_cons, ih, keys_insertNom]

theorem keys_uniqueNoms (ns : List Nom) :
    (uniqueNoms ns).map Nom.nominator_id = pydedup (ns.map Nom.nominator_id) := by
  unfold uniqueNoms pydedup
  rw [keys_uniqueNoms_go]
  rfl

theorem insertSorted_perm (n : Nom) (l : List Nom) :
    (insertSorted n l).Perm (n :: l) := by
  induction l with
  | nil => exact List.Perm.refl _
  | cons m ms ih =>
    unfold insertSorted
    split
    · exact List.Perm.refl _
    · exact List.Perm.trans (List.Perm.cons m ih) (List.Perm.swap n m ms)

theorem sortNoms_perm (l : List Nom) : (sortNoms l).Perm l := by
  induction l with
  | nil => exact List.Perm.refl _
  | cons n ns ih =>
    unfold sortNoms at ih ⊢
    rw [List.foldr_cons]
    exact (insertSorted_perm n _).trans (List.Perm.cons n ih)

theorem insertSorted_sorted {l : List Nom}
    (hs : l.Pairwise (fun a b => a.nominator_id ≤ b.nominator_id)) (n : Nom) :
    (insertSorted n l).Pairwise (fun a b => a.nominator_id ≤ b.nominator_id) := by
  induction l with
  | nil => simp [insertSorted]
  | cons m ms ih =>
    rw [List.pairwise_cons] at hs
    obtain ⟨hm, hms⟩ := hs
    unfold insertSorted
    split
    · next hle =>
      rw [List.pairwise_cons]
      refine ⟨?_, List.pairwise_cons.mpr ⟨hm, hms⟩⟩
      intro b hb
      rcases List.mem_cons.mp hb with heq | hbm
      · rw [heq]; exact hle
      · exact le_trans hle (hm b hbm)
    · next hgt =>
      have hnm : m.nominator_id ≤ n.nominator_id := le_of_not_le hgt
      rw [List.pairwise_cons]
      refine ⟨?_, ih hms⟩
      intro b hb
      have hmem : b ∈ n :: ms := (insertSorted_perm n ms).mem_iff.mp hb
      rcases List.mem_cons.mp hmem with heq | hbm
      · rw [heq]; exact hnm
      · exact hm b hbm

theorem sortNoms_sorted (l : List Nom) :
    (sortNoms l).Pairwise (fun a b => a.nominator_id ≤ b.nominator_id) := by
  induction l with
  | nil => simp [sortNoms]
  | cons n ns ih =>
    unfold sortNoms at ih ⊢
    rw [List.foldr_cons]
    exact insertSorted_sorted ih n

theorem sorted_nodup_lt {l : List Nom}
    (hs : l.Pairwise (fun a b => a.nominator_id ≤ b.nominator_id))
    (hn : (l.map Nom.nominator_id).Nodup) :
    l.Pairwise (fun a b => a.nominator_id < b.nominator_id) := by
  have hne : l.Pairwise (fun a b => a.nominator_id ≠ b.nominator_id) :=
    (List.pairwise_map).mp hn
  exact (hs.and hne).imp (fun h => lt_of_le_of_ne h.1 h.2)

theorem pairsOf_countP {l : List Nom}
    (hlt : l.Pairwise (fun a b => a.nominator_id < b.nominator_id))
    (a b : Nat) :
    (pairsOf l).countP
        (fun p => decide (p.1.nominator_id = a ∧ p.2.nominator_id = b))
      = if a < b ∧ a ∈ l.map Nom.nominator_id ∧ b ∈ l.map Nom.nominator_id
          then 1 else 0 := by
  induction l with
  | nil => simp [pairsOf]
  | cons x xs ih =>
    rw [List.pairwise_cons] at hlt
    obtain ⟨hx, hxs⟩ := hlt
    have hnd : (xs.map Nom.nominator_id).Nodup :=
      (List.pairwise_map).mpr (hxs.imp (fun h => Nat.ne_of_lt h))
    have hconsa : (a ∈ (x :: xs).map Nom.nominator_id) ↔
        (a = x.nominator_id ∨ a ∈ xs.map Nom.nominator_id) := by
      rw [List.map_cons, List.mem_cons]
    have hconsb : (b ∈ (x :: xs).map Nom.nominator_id) ↔
        (b = x.nominator_id ∨ b ∈ xs.map Nom.nominator_id) := by
      rw [List.map_cons, List.mem_cons]
    show ((xs.map (fun y => (x, y)) ++ pairsOf xs).countP _) = _
    rw [List.countP_append, List.countP_map, ih hxs]
    by_cases hxa : x.nominator_id = a
    · have hna : a ∉ xs.map Nom.nominator_id := by
        intro hmem
        obtain ⟨e, he, heq⟩ := List.mem_map.mp hmem
        have hlt2 := hx e he
        omega
      have hmap : xs.countP
          ((fun p : Nom × Nom =>
            decide (p.1.nominator_id = a ∧ p.2.nominator_id = b)) ∘
            (fun y => (x, y)))
          = if b ∈ xs.map Nom.nominator_id then 1 else 0 := by
        rw [countP_ext _ (fun y => decide (y.nominator_id = b)) xs
          (fun y _ => by simp [hxa])]
        exact countP_eq_indicator Nom.nominator_id hnd b
      have hrec :
          (if a < b ∧ a ∈ xs.map Nom.nominator_id ∧ b ∈ xs.map Nom.nominator_id
            then 1 else 0) = 0 := by
        rw [if_neg]
        rintro ⟨-, hmem, -⟩
        exact hna hmem
      rw [hmap, hrec]
      by_cases hb2 : b ∈ xs.map Nom.nominator_id
      · have hab : a < b := by
          obtain ⟨e, he, heq⟩ := List.mem_map.mp hb2
          have hlt2 := hx e he
          omega
        rw [if_pos hb2,
          if_pos ⟨hab, hconsa.mpr (Or.inl hxa.symm), hconsb.mpr (Or.inr hb2)⟩]
      · rw [if_neg hb2, if_neg ?_]
        rintro ⟨hab, -, hbc⟩
        rcases hconsb.mp hbc with heq | hmem
        · omega
        · exact hb2 hmem
    · have hmap0 : xs.countP
          ((fun p : Nom × Nom =>
            decide (p.1.nominator_id = a ∧ p.2.nominator_id = b)) ∘
            (fun y => (x, y))) = 0 := by
        rw [List.countP_eq_zero]
        intro y _
        simp [hxa]
      rw [hmap0]
      have hiff :
          (a < b ∧ a ∈ xs.map Nom.nominator_id ∧ b ∈ xs.map Nom.nominator_id) ↔
          (a < b ∧ a ∈ (x :: xs).map Nom.nominator_id ∧
            b ∈ (x :: xs).map Nom.nominator_id) := by
        constructor
        · rintro ⟨hab, ha2, hb2⟩
          exact ⟨hab, hconsa.mpr (Or.inr ha2), hconsb.mpr (Or.inr hb2)⟩
        · rintro ⟨hab, hac, hbc⟩
          have ha2 : a ∈ xs.map Nom.nominator_id := by
            rcases hconsa.mp hac with heq | hmem
            · exact absurd heq.symm hxa
            · exact hmem
          have hb2 : b ∈ xs.map Nom.nominator_id := by
            rcases hconsb.mp hbc with heq | hmem
            · exfalso
              obtain ⟨e, he, heq2⟩ := List.mem_map.mp ha2
              have hlt2 := hx e he
              omega
            · exact hmem
          exact ⟨hab, ha2, hb2⟩
      rw [if_congr hiff rfl rfl]
      omega

theorem pairFold_count_delta (d : String) (ps : List (Nom × Nom))
    (st : ScanState) (a b : Nat) :
    ((ps.foldl (pairStep d) st).pair_counts (a, b)).count
      = (st.pair_counts (a, b)).count
        + ps.countP
            (fun p => decide (p.1.nominator_id = a ∧ p.2.nominator_id = b)) := by
  induction ps generalizing st with
  | nil => simp
  | cons p rest ih =>
    rw [List.foldl_cons, ih, pairStep_count_delta, List.countP_cons]
    simp only [decide_eq_true_eq]
    by_cases hp : p.1.nominator_id = a ∧ p.2.nominator_id = b
    · have hk : ((a, b) : Nat × Nat) = (p.1.nominator_id, p.2.nominator_id) := by
        rw [hp.1, hp.2]
      simp only [if_pos hk, if_pos hp]
      omega
    · have hk : ((a, b) : Nat × Nat) ≠ (p.1.nominator_id, p.2.nominator_id) := by
        intro hh
        exact hp ⟨(congrArg Prod.fst hh).symm, (congrArg Prod.snd hh).symm⟩
      simp only [if_neg hk, if_neg hp]
      omega

theorem applyNoms_pair_count (d : String) (st : ScanState) (ns : List Nom)
    (a b : Nat) :
    ((applyNoms d st ns).pair_counts (a, b)).count
      = (st.pair_counts (a, b)).count
        + (if a < b ∧ a ∈ ns.map Nom.nominator_id ∧ b ∈ ns.map Nom.nominator_id
            then 1 else 0) := by
  simp only [applyNoms]
  split
  · next hnil =>
    rw [hnil]
    simp
  · split
    · next h2 =>
      rw [pairFold_count_delta,
        foldl_proj (indStep d) (fun st => st.pair_counts)
          (fun st n => (indStep_others d st n).2.2.1)]
      congr 1
      have hnd : ((uniqueNoms ns).map Nom.nominator_id).Nodup := by
        rw [keys_uniqueNoms]
        exact pydedup_nodup _
      have hperm : ((sortNoms (uniqueNoms ns)).map Nom.nominator_id).Perm
          ((uniqueNoms ns).map Nom.nominator_id) := (sortNoms_perm _).map _
      have hnds : ((sortNoms (uniqueNoms ns)).map Nom.nominator_id).Nodup :=
        hperm.nodup_iff.mpr hnd
      have hlt := sorted_nodup_lt (sortNoms_sorted (uniqueNoms ns)) hnds
      rw [pairsOf_countP hlt a b]
      refine if_congr ?_ rfl rfl
      have hma : ∀ x : Nat,
          x ∈ (sortNoms (uniqueNoms ns)).map Nom.nominator_id ↔
            x ∈ ns.map Nom.nominator_id := by
        intro x
        rw [hperm.mem_iff, keys_uniqueNoms, mem_pydedup_iff]
      rw [hma a, hma b]
    · next h2 =>
      rw [foldl_proj (indStep d) (fun st => st.pair_counts)
          (fun st n => (indStep_others d st n).2.2.1)]
      rw [if_neg ?_]
      · omega
      · rintro ⟨hab, hma, hmb⟩
        have ha : a ∈ (uniqueNoms ns).map Nom.nominator_id := by
          rw [keys_uniqueNoms, mem_pydedup_iff]
          exact hma
        have hb : b ∈ (uniqueNoms ns).map Nom.nominator_id := by
          rw [keys_uniqueNoms, mem_pydedup_iff]
          exact hmb
        cases hu : uniqueNoms ns with
        | nil =>
          rw [hu] at ha
          simp at ha
        | cons n rest =>
          have hrest : rest = [] := by
            rw [hu] at h2
            cases rest with
            | nil => rfl
            | cons r rs =>
              exfalso
              apply h2
              simp [List.length_cons]
          subst hrest
          rw [hu] at ha hb
          simp only [List.map_cons, List.map_nil, List.mem_cons,
            List.not_mem_nil, or_false] at ha hb
          omega

/-- C6 (confirmed): in the per-set merge of the global scan, the duo
counter of key `(a, b)` changes by exactly one when `a < b` and both are
nominator ids of the fetched set (pairing is combinatorial over the
deduplicated nominator set, keyed in ascending id order), and is unchanged
for every other key - in particular no key with `a ≥ b` is ever touched,
so `(a, b)` and `(b, a)` can never yield two entries or two increments. -/
theorem claim_c6_duo_once {w : World} (st : ScanState) (fs : List SetRef)
    (s : SetRef) (d : DeepData) (h : Nat)
    (hf : w.fetch1 s.id = some d) (hh : d.user_id = some h) (a b : Nat) :
    (((mainStep w (st, fs) s).1).pair_counts (a, b)).count
      = (st.pair_counts (a, b)).count
        + (if a < b ∧ a ∈ (setNoms d).map Nom.nominator_id ∧
              b ∈ (setNoms d).map Nom.nominator_id then 1 else 0) := by
  have hhost : (process_nominator_set (w.fetch1 s.id)).host_id = some h := by
    rw [pns_host_id, hf]
    exact hh
  have hnoms : (process_nominator_set (w.fetch1 s.id)).noms = setNoms d := by
    rw [hf]
    rfl
  simp only [mainStep]
  rw [hhost]
  dsimp only
  have hcnt :
      ((List.foldl (gdStep (dateOf s))
          (applyNoms (dateOf s)
            { st with scanned_ids := insertKey st.scanned_ids s.id }
            (process_nominator_set (w.fetch1 s.id)).noms)
          (process_nominator_set (w.fetch1 s.id)).gdm).pair_counts (a, b)).count
        = (st.pair_counts (a, b)).count
          + (if a < b ∧ a ∈ (setNoms d).map Nom.nominator_id ∧
                b ∈ (setNoms d).map Nom.nominator_id then 1 else 0) := by
    rw [foldl_proj (gdStep (dateOf s)) (fun st => st.pair_counts)
        (fun st g => (gdStep_others _ st g).2.2.1),
      hnoms, applyNoms_pair_count]
  split
  · rw [(hostRefineMain_others _ _ _).2.2.1]
    exact hcnt
  · exact hcnt

def c6dd : DeepData :=
  { user_id := some 5
    beatmaps := []
    current_nominations := [⟨7, ["osu"]⟩, ⟨8, ["osu", "taiko"]⟩]
    events_noms := [] }

def c6w : World :=
  { token_ok := true
    corpus := [{ id := 12, user_id := some 5,
                 ranked_date := some "2020-04-04T0", last_updated := none }]
    fetch1 := fun _ => some c6dd
    fetch2 := fun _ => none }

theorem claim_c6_witness :
    (((mainStep c6w (emptyState, [])
          { id := 12, user_id := some 5,
            ranked_date := some "2020-04-04T0", last_updated := none }).1).pair_counts (7, 8)).count
      = (emptyState.pair_counts (7, 8)).count
        + (if 7 < 8 ∧ 7 ∈ (setNoms c6dd).map Nom.nominator_id ∧
              8 ∈ (setNoms c6dd).map Nom.nominator_id then 1 else 0) :=
  @claim_c6_duo_once c6w emptyState []
    { id := 12, user_id := some 5,
      ranked_date := some "2020-04-04T0", last_updated := none }
    c6dd 5 (by rfl) (by rfl) 7 8
